import Mathlib

/-!
# Lark interpreter: evaluator and lexer semantics

A shallow embedding of `lark/evaluator/evaluator.go` and `lark/lexer/lexer.go`
(with the constants and tables of `lark/token/token.go`) and theorems about
them.

Conventions of the embedding

* A Go `object.Object` interface value is an `Object`: either `nil` or a
  pointer to one of the concrete variants.  Every pointer carries the address
  of its allocation (`addr`), so that Go's interface comparison `left == right`
  (same dynamic type and same pointer) can be expressed.  Objects are never
  mutated after construction by the evaluator, so the pointee is stored with
  the pointer.
* Allocation is explicit: a `Heap` holds the next free address and the
  environments (which are mutable and shared between closures).
* `int64` values are `Int`s; arithmetic wraps explicitly (`wrap64`).
* A Go run-time panic is a `Fault`; recursion of `Eval` is bounded by fuel and
  running out of fuel is the separate fault `outOfFuel`.
-/

namespace Lark

/-! ## Package token -/

namespace token

def EQ : String := "=="
def NOT_EQ : String := "!="
def LT : String := "<"
def GT : String := ">"
def LBRACE : String := "\x7b"
def RBRACE : String := "\x7d"
def LPAREN : String := "("
def RPAREN : String := ")"
def ASSIGN : String := "="
def ASTERISK : String := "*"
def PLUS : String := "+"
def BANG : String := "!"
def MINUS : String := "-"
def SLASH : String := "/"
def SEMICOLON : String := ";"
def COMMA : String := ","
def COLON : String := ":"
def LBRACKET : String := "["
def RBRACKET : String := "]"

end token

/-! ## Package ast (type declarations) -/

/-- Modelled from the spec: the closed set of AST node kinds of package ast
(section 6), which is not among the sources.  The fields are the ones the
evaluator reads.  A `*ast.BlockStatement` field (`Consequence`, `Alternative`,
`Body`) is the list of the block's statements; `Alternative` may be absent.
`HashLiteral.Pairs` is a Go map from key node to value node: the list gives
its pairs in the order in which the `range` loop of one run visits them. -/
inductive Node where
  | Program (Statements : List Node)
  | ExpressionStatement (Expression : Node)
  | LetStatement (Name : String) (Value : Node)
  | ReturnStatement (ReturnValue : Node)
  | BlockStatement (Statements : List Node)
  | Identifier (Value : String)
  | IntegerLiteral (Value : Int)
  | StringLiteral (Value : String)
  | Boolean (Value : Bool)
  | PrefixExpression (Operator : String) (Right : Node)
  | InfixExpression (Left : Node) (Operator : String) (Right : Node)
  | IfExpression (Condition : Node) (Consequence : List Node)
      (Alternative : Option (List Node))
  | FunctionLiteral (Parameters : List String) (Body : List Node)
  | CallExpression (Function : Node) (Arguments : List Node)
  | ArrayLiteral (Elements : List Node)
  | IndexExpression (Left : Node) (Index : Node)
  | HashLiteral (Pairs : List (Node × Node))

/-! ## Package object (type declarations) -/

/-- Modelled from the spec: the type tags returned by `Type()` (package object
is not among the sources).  The constants `INTEGER_OBJ`, ... are the names the
evaluator uses; they are assumed pairwise distinct. -/
inductive ObjectType where
  | INTEGER_OBJ
  | BOOLEAN_OBJ
  | STRING_OBJ
  | NULL_OBJ
  | ARRAY_OBJ
  | HASH_OBJ
  | FUNCTION_OBJ
  | BUILTIN_OBJ
  | RETURN_VALUE_OBJ
  | ERROR_OBJ
  deriving DecidableEq, Repr

/-- Modelled from the spec: the text of a type tag as printed by `%s`.  The
spec shows `INTEGER`, `STRING` (section 8) and `FUNCTION`; the others follow
the constant names. -/
def ObjectType.toString : ObjectType → String
  | .INTEGER_OBJ => "INTEGER"
  | .BOOLEAN_OBJ => "BOOLEAN"
  | .STRING_OBJ => "STRING"
  | .NULL_OBJ => "NULL"
  | .ARRAY_OBJ => "ARRAY"
  | .HASH_OBJ => "HASH"
  | .FUNCTION_OBJ => "FUNCTION"
  | .BUILTIN_OBJ => "BUILTIN"
  | .RETURN_VALUE_OBJ => "RETURN_VALUE"
  | .ERROR_OBJ => "ERROR"

/-- Modelled from the spec: `object.HashKey{Type, Value}` (section 3). -/
structure HashKey where
  Type_ : ObjectType
  Value : Nat
  deriving DecidableEq, Repr

/-- Modelled from the spec: the variants of `object.Object` (section 3).
`nil` is the nil interface value and `Str` is `object.String`.  `Hash.Pairs`
is a Go map from `HashKey` to `HashPair{Key, Value}`, kept as an association
list with at most one entry per key.  `Function.Env` is the address of the captured environment and
`Builtin.Fn` names the native function. -/
inductive Object where
  | nil
  | Integer (addr : Nat) (Value : Int)
  | Boolean (addr : Nat) (Value : Bool)
  | Str (addr : Nat) (Value : String)
  | Null (addr : Nat)
  | Array (addr : Nat) (Elements : List Object)
  | Hash (addr : Nat) (Pairs : List (HashKey × Object × Object))
  | Function (addr : Nat) (Parameters : List String) (Body : List Node) (Env : Nat)
  | Builtin (addr : Nat) (Fn : Nat)
  | ReturnValue (addr : Nat) (Value : Object)
  | Error (addr : Nat) (Message : String)

/-- A Go run-time panic, or exhaustion of the fuel that bounds the recursion
of the embedding. -/
inductive Fault where
  | nilDereference
  | divideByZero
  | typeAssertion
  | indexOutOfRange
  | outOfFuel
  deriving DecidableEq, Repr

namespace Object

/-- The method `Type()`: calling it on a nil interface value panics. -/
def Type_ : Object → Except Fault ObjectType
  | .nil => .error .nilDereference
  | .Integer _ _ => .ok .INTEGER_OBJ
  | .Boolean _ _ => .ok .BOOLEAN_OBJ
  | .Str _ _ => .ok .STRING_OBJ
  | .Null _ => .ok .NULL_OBJ
  | .Array _ _ => .ok .ARRAY_OBJ
  | .Hash _ _ => .ok .HASH_OBJ
  | .Function _ _ _ _ => .ok .FUNCTION_OBJ
  | .Builtin _ _ => .ok .BUILTIN_OBJ
  | .ReturnValue _ _ => .ok .RETURN_VALUE_OBJ
  | .Error _ _ => .ok .ERROR_OBJ

/-- The dynamic type of an interface value (`none` for nil). -/
def dynType : Object → Option ObjectType
  | .nil => none
  | .Integer _ _ => some .INTEGER_OBJ
  | .Boolean _ _ => some .BOOLEAN_OBJ
  | .Str _ _ => some .STRING_OBJ
  | .Null _ => some .NULL_OBJ
  | .Array _ _ => some .ARRAY_OBJ
  | .Hash _ _ => some .HASH_OBJ
  | .Function _ _ _ _ => some .FUNCTION_OBJ
  | .Builtin _ _ => some .BUILTIN_OBJ
  | .ReturnValue _ _ => some .RETURN_VALUE_OBJ
  | .Error _ _ => some .ERROR_OBJ

/-- The pointer held by an interface value (0 for nil). -/
def address : Object → Nat
  | .nil => 0
  | .Integer a _ => a
  | .Boolean a _ => a
  | .Str a _ => a
  | .Null a => a
  | .Array a _ => a
  | .Hash a _ => a
  | .Function a _ _ _ => a
  | .Builtin a _ => a
  | .ReturnValue a _ => a
  | .Error a _ => a

/-- Go's `==` on two interface values holding pointers: both nil, or the same
dynamic type and the same pointer. -/
def same (a b : Object) : Bool :=
  match a.dynType, b.dynType with
  | none, none => true
  | some ta, some tb => decide (ta = tb) && decide (a.address = b.address)
  | _, _ => false

/-- The type assertion `obj.(*object.Integer).Value`. -/
def integerValue : Object → Except Fault Int
  | .Integer _ v => .ok v
  | _ => .error .typeAssertion

/-- The type assertion `obj.(*object.Boolean).Value`. -/
def booleanValue : Object → Except Fault Bool
  | .Boolean _ v => .ok v
  | _ => .error .typeAssertion

/-- The type assertion `obj.(*object.String).Value`. -/
def stringValue : Object → Except Fault String
  | .Str _ v => .ok v
  | _ => .error .typeAssertion

end Object

/-- Modelled from the spec: `object.Environment` (section 4.2), a Go map from
name to object and an optional enclosing environment, given by its address. -/
structure Environment where
  store : List (String × Object)
  outer : Option Nat

/-- The allocator: the next free object address and the environments created
so far (the address of an environment is its position). -/
structure Heap where
  next : Nat
  envs : List Environment

/-- Result of an evaluation step: the object and the heap after it, or a
fault. -/
abbrev Res := Except Fault (Object × Heap)

/-! ## Go maps as association lists -/

/-- The Go map read `m[k]` (with the `ok` flag as `Option`). -/
def mapGet {κ ν : Type} [DecidableEq κ] : List (κ × ν) → κ → Option ν
  | [], _ => none
  | (k0, v0) :: rest, k => if k0 = k then some v0 else mapGet rest k

/-- The Go map write `m[k] = v`. -/
def mapSet {κ ν : Type} [DecidableEq κ] : List (κ × ν) → κ → ν → List (κ × ν)
  | [], k, v => [(k, v)]
  | (k0, v0) :: rest, k, v =>
      if k0 = k then (k0, v) :: rest else (k0, v0) :: mapSet rest k v

/-! ## Integers -/

/-- Reduction of an integer to the `int64` range (two's complement). -/
def wrap64 (x : Int) : Int := (x + 2 ^ 63) % 2 ^ 64 - 2 ^ 63

/-- The `int64` range. -/
def isInt64 (x : Int) : Prop := -(2 ^ 63) ≤ x ∧ x < 2 ^ 63

instance (x : Int) : Decidable (isInt64 x) := by
  unfold isInt64
  exact inferInstance

/-! ## What the evaluator takes from outside -/

/-- Modelled from the spec: the parts of the program that the evaluator uses
and that are not among the sources.  `hashInteger`, `hashBoolean` and
`hashString` give the `Value` of the `HashKey` of a Hashable object,
"derived deterministically from their content" (section 3); `builtins` is the
Go map of the Built-in Registry (section 6) and `builtinFn` runs the native
function of a `Builtin`. -/
structure Runtime where
  hashInteger : Int → Nat
  hashBoolean : Bool → Nat
  hashString : String → Nat
  builtins : List (String × Object)
  builtinFn : Nat → List Object → Heap → Res

/-- Modelled from the spec: the type assertion `obj.(object.Hashable)` followed
by `HashKey()`: only `Integer`, `Boolean` and `String` are Hashable
(section 3); `none` is the failed assertion. -/
def hashKey (rt : Runtime) : Object → Option HashKey
  | .Integer _ v => some ⟨.INTEGER_OBJ, rt.hashInteger v⟩
  | .Boolean _ v => some ⟨.BOOLEAN_OBJ, rt.hashBoolean v⟩
  | .Str _ v => some ⟨.STRING_OBJ, rt.hashString v⟩
  | _ => none

/-! ## Environments -/

/-- Modelled from the spec: `NewEnvironment` / `NewEnclosedEnvironment`
(section 4.2): a fresh empty scope whose lookup continues in `outer`. -/
def Heap.newEnvironment (h : Heap) (outer : Option Nat) : Nat × Heap :=
  (h.envs.length, { h with envs := h.envs ++ [{ store := [], outer := outer }] })

/-- Lookup along the chain of enclosing environments, at most `n` scopes. -/
def envGetAux (envs : List Environment) : Nat → Nat → String → Option Object
  | 0, _, _ => none
  | n + 1, env, name =>
    match envs[env]? with
    | none => none
    | some e =>
      match mapGet e.store name with
      | some v => some v
      | none =>
        match e.outer with
        | some o => envGetAux envs n o name
        | none => none

/-- Modelled from the spec: `Environment.Get` (section 4.2): the local scope,
then the enclosing scopes.  The chain has no cycle, so it is no longer than
the number of environments. -/
def Heap.envGet (h : Heap) (env : Nat) (name : String) : Option Object :=
  envGetAux h.envs h.envs.length env name

/-- Modelled from the spec: `Environment.Set` (section 4.2): binds the name in
the local scope only. -/
def Heap.envSet (h : Heap) (env : Nat) (name : String) (value : Object) : Heap :=
  match h.envs[env]? with
  | none => h
  | some e =>
    { h with envs := h.envs.set env { e with store := mapSet e.store name value } }

/-! ## Package evaluator -/

def NULL : Object := .Null 0
def TRUE : Object := .Boolean 1 true
def FALSE : Object := .Boolean 2 false

/-- The heap at program start: the three singletons are allocated. -/
def Heap.initial : Heap := { next := 3, envs := [] }

/-- The function `newError`: allocates an Error; `message` is the text that
`fmt.Sprintf` produces, built at the call site. -/
def newError (message : String) (h : Heap) : Object × Heap :=
  (.Error h.next message, { h with next := h.next + 1 })

def nativeBoolToBooleanObject (input : Bool) : Object :=
  if input then TRUE else FALSE

def isError (obj : Object) : Bool :=
  match obj with
  | .nil => false
  | o => decide (o.dynType = some .ERROR_OBJ)

def isTruthy (obj : Object) : Bool :=
  if obj.same NULL then false
  else if obj.same TRUE then true
  else if obj.same FALSE then false
  else true

def unwrapReturnValue (obj : Object) : Object :=
  match obj with
  | .ReturnValue _ v => v
  | o => o

def evalBangOperator (obj : Object) (h : Heap) : Res := do
  let t ← obj.Type_
  if t = .BOOLEAN_OBJ then
    let v ← obj.booleanValue
    pure (nativeBoolToBooleanObject (!v), h)
  else if t = .INTEGER_OBJ then
    let v ← obj.integerValue
    pure (nativeBoolToBooleanObject (!(decide (v ≠ 0))), h)
  else
    pure (newError ("undefined behavior with ! operator and " ++ t.toString) h)

def evalMinusOperator (obj : Object) (h : Heap) : Res := do
  let t ← obj.Type_
  if t ≠ .INTEGER_OBJ then
    pure (newError ("unknown operator: -" ++ t.toString) h)
  else
    let value ← obj.integerValue
    pure (.Integer h.next (wrap64 (-value)), { h with next := h.next + 1 })

def evalPrefix (operator : String) (right : Object) (h : Heap) : Res :=
  if operator = token.BANG then evalBangOperator right h
  else if operator = token.MINUS then evalMinusOperator right h
  else do
    let t ← right.Type_
    pure (newError ("unknown operator: " ++ operator ++ t.toString) h)

def evalNumericOperation (left right : Object) (operator : String) (h : Heap) : Res := do
  let leftVal ← left.integerValue
  let rightVal ← right.integerValue
  if operator = token.PLUS then
    pure (.Integer h.next (wrap64 (leftVal + rightVal)), { h with next := h.next + 1 })
  else if operator = token.MINUS then
    pure (.Integer h.next (wrap64 (leftVal - rightVal)), { h with next := h.next + 1 })
  else if operator = token.ASTERISK then
    pure (.Integer h.next (wrap64 (leftVal * rightVal)), { h with next := h.next + 1 })
  else if operator = token.SLASH then
    if rightVal = 0 then throw .divideByZero
    else pure (.Integer h.next (wrap64 (Int.tdiv leftVal rightVal)), { h with next := h.next + 1 })
  else if operator = token.EQ then
    pure (nativeBoolToBooleanObject (decide (leftVal = rightVal)), h)
  else if operator = token.NOT_EQ then
    pure (nativeBoolToBooleanObject (decide (leftVal ≠ rightVal)), h)
  else if operator = token.LT then
    pure (nativeBoolToBooleanObject (decide (leftVal < rightVal)), h)
  else if operator = token.GT then
    pure (nativeBoolToBooleanObject (decide (leftVal > rightVal)), h)
  else do
    let lt ← left.Type_
    let rt ← right.Type_
    pure (newError ("unknown operator: " ++ lt.toString ++ " " ++ operator ++ " " ++ rt.toString) h)

def evalStringOperation (left right : Object) (operator : String) (h : Heap) : Res :=
  if operator ≠ token.PLUS then do
    let lt ← left.Type_
    let rt ← right.Type_
    pure (newError ("unknown operator: " ++ lt.toString ++ " " ++ operator ++ " " ++ rt.toString) h)
  else do
    let l ← left.stringValue
    let r ← right.stringValue
    pure (.Str h.next (l ++ r), { h with next := h.next + 1 })

/-- The condition `left.Type() == t && right.Type() == t`: the right operand
is inspected only when the left one has type `t`. -/
def bothOfType (left right : Object) (t : ObjectType) : Except Fault Bool := do
  let lt ← left.Type_
  if lt = t then
    let rt ← right.Type_
    pure (decide (rt = t))
  else
    pure false

def evalInfixExpression (left right : Object) (operator : String) (h : Heap) : Res := do
  if (← bothOfType left right .INTEGER_OBJ) then
    evalNumericOperation left right operator h
  else if (← bothOfType left right .STRING_OBJ) then
    evalStringOperation left right operator h
  else if operator = token.EQ then
    pure (nativeBoolToBooleanObject (left.same right), h)
  else if operator = token.NOT_EQ then
    pure (nativeBoolToBooleanObject (!(left.same right)), h)
  else do
    let lt ← left.Type_
    let rt ← right.Type_
    if lt ≠ rt then
      pure (newError ("type mismatch: " ++ lt.toString ++ " " ++ operator ++ " " ++ rt.toString) h)
    else
      pure (newError ("unknown operator: " ++ lt.toString ++ " " ++ operator ++ " " ++ rt.toString) h)

def evalHashIndexExpression (rt : Runtime) (hash index : Object) (h : Heap) : Res :=
  match hash with
  | .Hash _ pairs =>
    match hashKey rt index with
    | none => do
      let t ← index.Type_
      pure (newError ("unusable as hash key: " ++ t.toString) h)
    | some key =>
      match mapGet pairs key with
      | none => pure (NULL, h)
      | some pair => pure (pair.2, h)
  | _ => throw .typeAssertion

/-- The condition `left.Type() == ARRAY_OBJ && index.Type() == INTEGER_OBJ`:
the index is inspected only when the left operand is an array. -/
def arrayAndInteger (left index : Object) : Except Fault Bool := do
  let lt ← left.Type_
  if lt = .ARRAY_OBJ then
    let it ← index.Type_
    pure (decide (it = .INTEGER_OBJ))
  else
    pure false

def evalIndexExpression (rt : Runtime) (left index : Object) (h : Heap) : Res := do
  if (← arrayAndInteger left index) then
    match left with
    | .Array _ elements =>
      let idx ← index.integerValue
      let max : Int := (elements.length : Int) - 1
      if idx < 0 ∨ idx > max then
        pure (NULL, h)
      else
        match elements[idx.toNat]? with
        | some e => pure (e, h)
        | none => throw .indexOutOfRange
    | _ => throw .typeAssertion
  else do
    let lt ← left.Type_
    if lt = .HASH_OBJ then
      evalHashIndexExpression rt left index h
    else
      pure (newError ("index operator not supported: " ++ lt.toString) h)

/-! ### Statement sequences, calls and literals

The loops below take the evaluator of the sub-nodes as the argument `ev`;
`Eval` passes itself with the remaining fuel. -/

/-- The loop of `evalProgram`; `result` is the loop variable. -/
def evalProgram (ev : Node → Nat → Heap → Res) :
    List Node → Object → Nat → Heap → Res
  | [], result, _, h => .ok (result, h)
  | statement :: rest, _, env, h =>
    match ev statement env h with
    | .error f => .error f
    | .ok (result, h1) =>
      match result with
      | .ReturnValue _ v => .ok (v, h1)
      | .Error _ _ => .ok (result, h1)
      | _ => evalProgram ev rest result env h1

/-- The loop of `evalBlockStatement`; `result` is the loop variable. -/
def evalBlockStatement (ev : Node → Nat → Heap → Res) :
    List Node → Object → Nat → Heap → Res
  | [], result, _, h => .ok (result, h)
  | statement :: rest, _, env, h =>
    match ev statement env h with
    | .error f => .error f
    | .ok (result, h1) =>
      match result with
      | .nil => evalBlockStatement ev rest result env h1
      | _ =>
        if result.dynType = some .RETURN_VALUE_OBJ ∨ result.dynType = some .ERROR_OBJ then
          .ok (result, h1)
        else
          evalBlockStatement ev rest result env h1

/-- The loop of `evalExpressions`; `result` is the slice built so far. -/
def evalExpressions (ev : Node → Nat → Heap → Res) :
    List Node → List Object → Nat → Heap → Except Fault (List Object × Heap)
  | [], result, _, h => .ok (result, h)
  | e :: rest, result, env, h =>
    match ev e env h with
    | .error f => .error f
    | .ok (evaluated, h1) =>
      if isError evaluated then .ok ([evaluated], h1)
      else evalExpressions ev rest (result ++ [evaluated]) env h1

def evalIfExpression (ev : Node → Nat → Heap → Res) (Condition : Node)
    (Consequence : List Node) (Alternative : Option (List Node)) (env : Nat) (h : Heap) :
    Res :=
  match ev Condition env h with
  | .error f => .error f
  | .ok (condition, h1) =>
    if isError condition then .ok (condition, h1)
    else if isTruthy condition then ev (.BlockStatement Consequence) env h1
    else
      match Alternative with
      | some alt => ev (.BlockStatement alt) env h1
      | none => .ok (NULL, h1)

/-- The loop of `extendFunctionEnvironment`: binds the parameters from
position `index` on. -/
def bindParameters (environment : Nat) (args : List Object) :
    List String → Nat → Heap → Except Fault Heap
  | [], _, h => .ok h
  | parameter :: rest, index, h =>
    match args[index]? with
    | none => .error .indexOutOfRange
    | some a => bindParameters environment args rest (index + 1) (h.envSet environment parameter a)

def extendFunctionEnvironment (Parameters : List String) (Env : Nat) (args : List Object)
    (h : Heap) : Except Fault (Nat × Heap) :=
  let (environment, h1) := h.newEnvironment (some Env)
  match bindParameters environment args Parameters 0 h1 with
  | .error f => .error f
  | .ok h2 => .ok (environment, h2)

def applyFunction (rt : Runtime) (ev : Node → Nat → Heap → Res) (fn : Object)
    (args : List Object) (h : Heap) : Res :=
  match fn with
  | .Function _ Parameters Body Env =>
    if Parameters.length ≠ args.length then
      .ok (newError ("Argument mismatch, function " ++ ObjectType.FUNCTION_OBJ.toString
        ++ " expected " ++ toString Parameters.length ++ " parameter(s), but got "
        ++ toString args.length) h)
    else
      match extendFunctionEnvironment Parameters Env args h with
      | .error f => .error f
      | .ok (functionEnvironment, h1) =>
        match ev (.BlockStatement Body) functionEnvironment h1 with
        | .error f => .error f
        | .ok (evaluated, h2) => .ok (unwrapReturnValue evaluated, h2)
  | .Builtin _ f => rt.builtinFn f args h
  | _ =>
    match fn.Type_ with
    | .error f => .error f
    | .ok t => .ok (newError ("not a function: " ++ t.toString) h)

/-- The function `evalIdentifier`.  The name is part of the format string of
`newError`; names come from the lexer, which admits letters and `_` only, so
the text is printed as it is. -/
def evalIdentifier (rt : Runtime) (Value : String) (env : Nat) (h : Heap) : Res :=
  match h.envGet env Value with
  | some val => .ok (val, h)
  | none =>
    match mapGet rt.builtins Value with
    | some val => .ok (val, h)
    | none => .ok (newError ("identifier not found: " ++ Value) h)

/-- The loop of `evalHashLiteral`; `pairs` is the map built so far. -/
def evalHashLiteral (rt : Runtime) (ev : Node → Nat → Heap → Res) :
    List (Node × Node) → List (HashKey × Object × Object) → Nat → Heap → Res
  | [], pairs, _, h => .ok (.Hash h.next pairs, { h with next := h.next + 1 })
  | (keyNode, valueNode) :: rest, pairs, env, h =>
    match ev keyNode env h with
    | .error f => .error f
    | .ok (key, h1) =>
      if isError key then .ok (key, h1)
      else
        match hashKey rt key with
        | none =>
          match key.Type_ with
          | .error f => .error f
          | .ok t => .ok (newError ("unusable as hash key: " ++ t.toString) h1)
        | some hashed =>
          match ev valueNode env h1 with
          | .error f => .error f
          | .ok (value, h2) =>
            if isError value then .ok (value, h2)
            else evalHashLiteral rt ev rest (mapSet pairs hashed (key, value)) env h2

/-- The function `Eval`, with `fuel` bounding the depth of the recursion. -/
def Eval (rt : Runtime) : Nat → Node → Nat → Heap → Res
  | 0, _, _, _ => .error .outOfFuel
  | fuel + 1, node, env, h =>
    match node with
    | .Program Statements => evalProgram (Eval rt fuel) Statements .nil env h
    | .ExpressionStatement Expression => Eval rt fuel Expression env h
    | .InfixExpression Left Operator Right =>
      match Eval rt fuel Left env h with
      | .error f => .error f
      | .ok (left, h1) =>
        if isError left then .ok (left, h1)
        else
          match Eval rt fuel Right env h1 with
          | .error f => .error f
          | .ok (right, h2) =>
            if isError right then .ok (right, h2)
            else evalInfixExpression left right Operator h2
    | .PrefixExpression Operator Right =>
      match Eval rt fuel Right env h with
      | .error f => .error f
      | .ok (right, h1) =>
        if isError right then .ok (right, h1)
        else evalPrefix Operator right h1
    | .BlockStatement Statements => evalBlockStatement (Eval rt fuel) Statements .nil env h
    | .IfExpression Condition Consequence Alternative =>
      evalIfExpression (Eval rt fuel) Condition Consequence Alternative env h
    | .ReturnStatement ReturnValue =>
      match Eval rt fuel ReturnValue env h with
      | .error f => .error f
      | .ok (returnValue, h1) =>
        if isError returnValue then .ok (returnValue, h1)
        else .ok (.ReturnValue h1.next returnValue, { h1 with next := h1.next + 1 })
    | .FunctionLiteral Parameters Body =>
      .ok (.Function h.next Parameters Body env, { h with next := h.next + 1 })
    | .CallExpression Function Arguments =>
      match Eval rt fuel Function env h with
      | .error f => .error f
      | .ok (function, h1) =>
        if isError function then .ok (function, h1)
        else
          match evalExpressions (Eval rt fuel) Arguments [] env h1 with
          | .error f => .error f
          | .ok (args, h2) =>
            match args with
            | [a] => if isError a then .ok (a, h2) else applyFunction rt (Eval rt fuel) function args h2
            | _ => applyFunction rt (Eval rt fuel) function args h2
    | .LetStatement Name Value =>
      match Eval rt fuel Value env h with
      | .error f => .error f
      | .ok (value, h1) =>
        if isError value then .ok (value, h1)
        else .ok (.nil, h1.envSet env Name value)
    | .IndexExpression Left Index =>
      match Eval rt fuel Left env h with
      | .error f => .error f
      | .ok (left, h1) =>
        if isError left then .ok (left, h1)
        else
          match Eval rt fuel Index env h1 with
          | .error f => .error f
          | .ok (index, h2) =>
            if isError index then .ok (index, h2)
            else evalIndexExpression rt left index h2
    | .ArrayLiteral Elements =>
      match evalExpressions (Eval rt fuel) Elements [] env h with
      | .error f => .error f
      | .ok (elements, h1) =>
        match elements with
        | [a] =>
          if isError a then .ok (a, h1)
          else .ok (.Array h1.next elements, { h1 with next := h1.next + 1 })
        | _ => .ok (.Array h1.next elements, { h1 with next := h1.next + 1 })
    | .Identifier Value => evalIdentifier rt Value env h
    | .IntegerLiteral Value => .ok (.Integer h.next Value, { h with next := h.next + 1 })
    | .StringLiteral Value => .ok (.Str h.next Value, { h with next := h.next + 1 })
    | .Boolean Value => .ok (nativeBoolToBooleanObject Value, h)
    | .HashLiteral Pairs => evalHashLiteral rt (Eval rt fuel) Pairs [] env h

/-! ## Fixtures for statements about whole programs -/

/-- A key derivation for strings that has no collisions. -/
def hashStringInjective (s : String) : Nat :=
  Encodable.encode (s.data.map Char.toNat)

/-- A runtime with an empty Built-in Registry and a key derivation without
collisions. -/
def Runtime.bare : Runtime where
  hashInteger := fun v => Encodable.encode v
  hashBoolean := fun b => Encodable.encode b
  hashString := hashStringInjective
  builtins := []
  builtinFn := fun _ _ _ => .error .typeAssertion

/-- The heap of a fresh program run: the singletons and the top-level
environment, which has address 0 (`object.NewEnvironment()` in the REPL). -/
def Heap.start : Heap := (Heap.initial.newEnvironment none).2

/-- The program `if (0) { 1 } else { 2 }`. -/
def programIfZero : Node :=
  .Program [.ExpressionStatement (.IfExpression (.IntegerLiteral 0)
    [.ExpressionStatement (.IntegerLiteral 1)] (some [.ExpressionStatement (.IntegerLiteral 2)]))]

/-- The program `if (!0) { 1 } else { 2 }`. -/
def programIfNotZero : Node :=
  .Program [.ExpressionStatement (.IfExpression (.PrefixExpression token.BANG (.IntegerLiteral 0))
    [.ExpressionStatement (.IntegerLiteral 1)] (some [.ExpressionStatement (.IntegerLiteral 2)]))]

/-- The program `[1, 2, 3][5]`. -/
def programIndexOutOfRange : Node :=
  .Program [.ExpressionStatement (.IndexExpression
    (.ArrayLiteral [.IntegerLiteral 1, .IntegerLiteral 2, .IntegerLiteral 3])
    (.IntegerLiteral 5))]

/-- The objects 1, 2, 3 of an array `[1, 2, 3]`. -/
def oneTwoThree : List Object := [.Integer 3 1, .Integer 4 2, .Integer 5 3]

/-! ## Notions used to state the behaviour of hashes -/

/-- The content of a Hashable object: its variant and value, not its
address. -/
inductive Content where
  | integer (v : Int)
  | boolean (v : Bool)
  | string (v : String)
  deriving DecidableEq, Repr

/-- The content of an object, `none` when it is not Hashable. -/
def Object.content : Object → Option Content
  | .Integer _ v => some (.integer v)
  | .Boolean _ v => some (.boolean v)
  | .Str _ v => some (.string v)
  | _ => none

/-- The key and value objects that the loop of `evalHashLiteral` obtains from
the pairs of the literal, in the order in which it visits them (up to the
first fault). -/
def hashLiteralTrace (ev : Node → Nat → Heap → Res) :
    List (Node × Node) → Nat → Heap → List (Object × Object)
  | [], _, _ => []
  | (keyNode, valueNode) :: rest, env, h =>
    match ev keyNode env h with
    | .error _ => []
    | .ok (key, h1) =>
      match ev valueNode env h1 with
      | .error _ => []
      | .ok (value, h2) => (key, value) :: hashLiteralTrace ev rest env h2

/-- The value of the last pair of a trace whose key has the content `c`, and
NULL when there is none. -/
def lastValueFor (trace : List (Object × Object)) (c : Content) : Object :=
  match trace.reverse.find? (fun p => decide (p.1.content = some c)) with
  | some p => p.2
  | none => NULL

/-- The expression `{"a": 1}[index]` for a string `index`. -/
def hashAOneAt (index : String) : Node :=
  .IndexExpression (.HashLiteral [(.StringLiteral "a", .IntegerLiteral 1)])
    (.StringLiteral index)

/-! ## Notions used to state the behaviour of statement sequences -/

/-- A control signal: a ReturnValue or an Error. -/
def isSignal (obj : Object) : Bool :=
  decide (obj.dynType = some .RETURN_VALUE_OBJ ∨ obj.dynType = some .ERROR_OBJ)

/-- Evaluation of statements in sequence as long as none of them faults or
yields a control signal: the result of the last statement (`result` when
there is no statement) and the heap after it. -/
def quietRun (ev : Node → Nat → Heap → Res) :
    List Node → Object → Nat → Heap → Option (Object × Heap)
  | [], result, _, h => some (result, h)
  | statement :: rest, _, env, h =>
    match ev statement env h with
    | .error _ => none
    | .ok (r, h1) => if isSignal r then none else quietRun ev rest r env h1

/-- The statements `1; return 2; 3`. -/
def statementsOneReturnTwoThree : List Node :=
  [.ExpressionStatement (.IntegerLiteral 1)] ++
    .ReturnStatement (.IntegerLiteral 2) :: [.ExpressionStatement (.IntegerLiteral 3)]

/-! ## Programs in which a block without value or with a `return` is an operand -/

/-- The expression `if (true) { return 1 }`. -/
def ifTrueReturnOne : Node :=
  .IfExpression (.Boolean true) [.ReturnStatement (.IntegerLiteral 1)] none

/-- The program `return if (true) { return 1 }`. -/
def programReturnIfReturn : Node :=
  .Program [.ReturnStatement ifTrueReturnOne]

/-- The call `fn() { return if (true) { return 1 } }()`. -/
def callReturnIfReturn : Node :=
  .CallExpression (.FunctionLiteral [] [.ReturnStatement ifTrueReturnOne]) []

/-- The program `let x = if (true) { return 1 };`. -/
def programLetIfReturn : Node :=
  .Program [.LetStatement "x" ifTrueReturnOne]

/-- The program `[if (true) { return 1 }]`. -/
def programArrayIfReturn : Node :=
  .Program [.ExpressionStatement (.ArrayLiteral [ifTrueReturnOne])]

/-- The program `fn() {}() + 1`: the left operand is a call of a function
with an empty body. -/
def programEmptyCallPlusOne : Node :=
  .Program [.ExpressionStatement (.InfixExpression
    (.CallExpression (.FunctionLiteral [] []) []) token.PLUS (.IntegerLiteral 1))]

/-- The program `-if (true) { let a = 1 }`: the operand is an if-expression
whose block ends in a let statement. -/
def programMinusIfLet : Node :=
  .Program [.ExpressionStatement (.PrefixExpression token.MINUS
    (.IfExpression (.Boolean true) [.LetStatement "a" (.IntegerLiteral 1)] none))]
/-- The store that the loop of `extendFunctionEnvironment` builds from
`store`: the parameters bound to the arguments position by position, a later
binding of a name replacing an earlier one. -/
def boundStore (store : List (String × Object)) (Parameters : List String)
    (args : List Object) : List (String × Object) :=
  (Parameters.zip args).foldl (fun s pa => mapSet s pa.1 pa.2) store

/-! ## Programs with closures and recursion -/

/-- The body `x + y` of the inner function of `makeAdder`. -/
def adderBody : List Node :=
  [.ExpressionStatement (.InfixExpression (.Identifier "x") token.PLUS (.Identifier "y"))]

/-- The statement `let makeAdder = fn(x) { fn(y) { x + y } };`. -/
def letMakeAdder : Node :=
  .LetStatement "makeAdder"
    (.FunctionLiteral ["x"] [.ExpressionStatement (.FunctionLiteral ["y"] adderBody)])

/-- The program
`let makeAdder = fn(x) { fn(y) { x + y } }; let addTwo = makeAdder(a); addTwo(b);`. -/
def programMakeAdder (a b : Int) : Node :=
  .Program [
    letMakeAdder,
    .LetStatement "addTwo" (.CallExpression (.Identifier "makeAdder") [.IntegerLiteral a]),
    .ExpressionStatement (.CallExpression (.Identifier "addTwo") [.IntegerLiteral b])]

/-- The same program with `let x = 100;` before the call `addTwo(b)`: the
caller of `addTwo` has its own x. -/
def programMakeAdderOtherX (a b : Int) : Node :=
  .Program [
    letMakeAdder,
    .LetStatement "addTwo" (.CallExpression (.Identifier "makeAdder") [.IntegerLiteral a]),
    .LetStatement "x" (.IntegerLiteral 100),
    .ExpressionStatement (.CallExpression (.Identifier "addTwo") [.IntegerLiteral b])]

/-- The body `if (n < 2) { 1 } else { n * fact(n - 1) }` of `fact`. -/
def factBody : List Node :=
  [.ExpressionStatement
    (.IfExpression (.InfixExpression (.Identifier "n") token.LT (.IntegerLiteral 2))
      [.ExpressionStatement (.IntegerLiteral 1)]
      (some [.ExpressionStatement (.InfixExpression (.Identifier "n") token.ASTERISK
        (.CallExpression (.Identifier "fact")
          [.InfixExpression (.Identifier "n") token.MINUS (.IntegerLiteral 1)]))]))]

/-- The statement `let fact = fn(n) { if (n < 2) { 1 } else { n * fact(n - 1) } };`. -/
def letFact : Node :=
  .LetStatement "fact" (.FunctionLiteral ["n"] factBody)

/-- The program `let fact = fn(n) { ... }; fact(n);`. -/
def programFact (n : Int) : Node :=
  .Program [letFact, .ExpressionStatement (.CallExpression (.Identifier "fact") [.IntegerLiteral n])]

/-! ## A hash literal with a duplicate key -/

/-- The pairs of the literal `{"a": 1, "a": 2}` in source order. -/
def pairsAOneATwo : List (Node × Node) :=
  [(.StringLiteral "a", .IntegerLiteral 1), (.StringLiteral "a", .IntegerLiteral 2)]

/-- The expression `{"a": 1, "a": 2}["a"]`, the loop over the pairs of the
literal visiting them in the order `visited`. -/
def indexAOf (visited : List (Node × Node)) : Node :=
  .IndexExpression (.HashLiteral visited) (.StringLiteral "a")

/-! ## Package token (token types and tables) and package lexer -/

namespace token

def INT : String := "INT"
def IDENT : String := "IDENT"
def STRING : String := "STRING"
def LET : String := "LET"
def FUNCTION : String := "FUNCTION"
def IF : String := "IF"
def RETURN : String := "RETURN"
def TRUE : String := "TRUE"
def ELSE : String := "ELSE"
def FALSE : String := "FALSE"
def FOR : String := "FOR"
def EOF : String := "EOF"
def ILLEGAL : String := "ILLEGAL"

/-- The struct `Token`. -/
structure Token where
  Type_ : String
  Literal : String
  deriving DecidableEq, Repr

/-- The Go map `TokenTypeToByte`. -/
def TokenTypeToByte : List (String × Char) :=
  [(LT, '<'), (GT, '>'), (LBRACE, '\x7b'), (RBRACE, '\x7d'), (LPAREN, '('), (RPAREN, ')'),
   (ASSIGN, '='), (ASTERISK, '*'), (PLUS, '+'), (BANG, '!'), (MINUS, '-'), (SLASH, '/'),
   (SEMICOLON, ';'), (COMMA, ',')]

/-- The Go map `ByteToToken`. -/
def ByteToToken : List (Char × String) :=
  [('<', LT), ('>', GT), ('\x7b', LBRACE), ('\x7d', RBRACE), ('(', LPAREN), (')', RPAREN),
   ('=', ASSIGN), ('*', ASTERISK), ('+', PLUS), ('!', BANG), ('-', MINUS), ('/', SLASH),
   (';', SEMICOLON), (',', COMMA), ('[', LBRACKET), (']', RBRACKET), (':', COLON)]

/-- The Go map `keywords`. -/
def keywords : List (String × String) :=
  [("fn", FUNCTION), ("let", LET), ("true", TRUE), ("false", FALSE), ("if", IF),
   ("else", ELSE), ("return", RETURN), ("for", FOR)]

def FindIdentifier (ident : String) : String :=
  match mapGet keywords ident with
  | some keyword => keyword
  | none => IDENT

end token

namespace lexer

/-- The zero byte. -/
def NUL : Char := Char.ofNat 0

/-- The struct `Lexer`.  The input, a Go string, is the list of its bytes,
each byte given as the character of that code; `ch` is a byte. -/
structure Lexer where
  input : List Char
  position : Nat
  ch : Char
  deriving DecidableEq, Repr

def New (input : List Char) : Lexer :=
  { input := input, position := 0, ch := input.headD NUL }

def isLetter (character : Char) : Bool :=
  decide (('a' ≤ character ∧ character ≤ 'z') ∨ ('A' ≤ character ∧ character ≤ 'Z')
    ∨ character = '_')

def isDigit (character : Char) : Bool :=
  decide ('0' ≤ character ∧ character ≤ '9')

/-- The loop condition of `eatWhiteSpace`. -/
def isWhiteSpace (character : Char) : Bool :=
  decide (character = ' ' ∨ character = '\t' ∨ character = '\n' ∨ character = '\r')

namespace Lexer

def readChar (l : Lexer) : Lexer :=
  if l.position + 1 ≥ l.input.length then
    { l with position := l.position + 1, ch := NUL }
  else
    { l with position := l.position + 1, ch := l.input.getD (l.position + 1) NUL }

def peek (l : Lexer) : Char :=
  if l.position + 1 ≥ l.input.length then NUL
  else l.input.getD (l.position + 1) NUL

/-- The loop `for cond(lexer.ch) { lexer.readChar() }`, at most `n` rounds. -/
def readWhile (cond : Char → Bool) : Nat → Lexer → Lexer
  | 0, l => l
  | n + 1, l => if cond l.ch then readWhile cond n l.readChar else l

/-- The number of rounds after which every loop of the lexer has ended: each
round advances the position and the byte past the end of the input is zero,
on which every loop condition fails. -/
def rounds (l : Lexer) : Nat := l.input.length + 1

def eatWhiteSpace (l : Lexer) : Lexer :=
  readWhile isWhiteSpace l.rounds l

/-- The Go slice `lexer.input[start:stop]` as a string. -/
def slice (l : Lexer) (start stop : Nat) : String :=
  String.mk ((l.input.drop start).take (stop - start))

def readIntegerAsString (l : Lexer) : String × Lexer :=
  let l1 := readWhile isDigit l.rounds l
  (l1.slice l.position l1.position, l1)

def readIdentifier (l : Lexer) : String × Lexer :=
  let l1 := readWhile isLetter l.rounds l
  (l1.slice l.position l1.position, l1)

/-- The loop of `readString`: read a byte, stop at a quote or at the zero
byte; at most `n` rounds. -/
def readStringLoop : Nat → Lexer → Lexer
  | 0, l => l
  | n + 1, l =>
    let l1 := l.readChar
    if l1.ch = '"' ∨ l1.ch = NUL then l1 else readStringLoop n l1

def readString (l : Lexer) : String × Lexer :=
  let l1 := readStringLoop l.rounds l
  (l1.slice (l.position + 1) l1.position, l1)

/-- The method `NextToken`: the token and the lexer after the call.  In the
string case the deferred `readChar` runs after `readString`. -/
def NextToken (l0 : Lexer) : token.Token × Lexer :=
  let l := l0.eatWhiteSpace
  if l.ch = NUL then
    ({ Type_ := token.EOF, Literal := "" }, l)
  else if isLetter l.ch then
    let r := l.readIdentifier
    ({ Type_ := token.FindIdentifier r.1, Literal := r.1 }, r.2)
  else if isDigit l.ch then
    let r := l.readIntegerAsString
    ({ Type_ := token.INT, Literal := r.1 }, r.2)
  else if l.ch = '"' then
    let r := l.readString
    ({ Type_ := token.STRING, Literal := r.1 }, r.2.readChar)
  else
    match mapGet token.ByteToToken l.ch with
    | none => ({ Type_ := token.ILLEGAL, Literal := String.singleton l.ch }, l)
    | some nextTokenType =>
      if l.peek = (mapGet token.TokenTypeToByte token.ASSIGN).getD NUL then
        if nextTokenType = token.ASSIGN then
          ({ Type_ := token.EQ, Literal := token.EQ }, l.readChar.readChar)
        else if nextTokenType = token.BANG then
          ({ Type_ := token.NOT_EQ, Literal := token.NOT_EQ }, l.readChar.readChar)
        else
          ({ Type_ := nextTokenType, Literal := nextTokenType }, l.readChar)
      else
        ({ Type_ := nextTokenType, Literal := nextTokenType }, l.readChar)

/-- The tokens returned by `n` successive calls of `NextToken`. -/
def tokens : Nat → Lexer → List token.Token
  | 0, _ => []
  | n + 1, l => (l.NextToken).1 :: tokens n (l.NextToken).2

end Lexer

end lexer

/-! ## Further fixtures: an unbound condition and a key derivation with collisions -/

/-- The program `if (foo) { 1 } else { 2 }`, `foo` being bound nowhere. -/
def programIfUnbound : Node :=
  .Program [.ExpressionStatement (.IfExpression (.Identifier "foo")
    [.ExpressionStatement (.IntegerLiteral 1)] (some [.ExpressionStatement (.IntegerLiteral 2)]))]

/-- Modelled from the spec: a key derivation of which section 3 says all it
says of `HashKey` (the key is derived deterministically from the content, so
equal content gives an equal key) and in which two different strings of the
same length have the same key. -/
def Runtime.colliding : Runtime where
  hashInteger := fun v => Encodable.encode v
  hashBoolean := fun b => Encodable.encode b
  hashString := fun s => s.length
  builtins := []
  builtinFn := fun _ _ _ => .error .typeAssertion

/-! ## Theorems -/

/-! ### Integer arithmetic -/

theorem wrap64_isInt64 (x : Int) : isInt64 (wrap64 x) := by
  unfold isInt64 wrap64
  have h1 := Int.emod_nonneg (x + 2 ^ 63) (show (2 ^ 64 : Int) ≠ 0 by norm_num)
  have h2 := Int.emod_lt_of_pos (x + 2 ^ 63) (show (0 : Int) < 2 ^ 64 by norm_num)
  constructor <;> omega

theorem wrap64_congr (x : Int) : (2 ^ 64 : Int) ∣ (wrap64 x - x) := by
  unfold wrap64
  have := Int.emod_add_ediv (x + 2 ^ 63) (2 ^ 64)
  exact ⟨-((x + 2 ^ 63) / 2 ^ 64), by linarith⟩

theorem wrap64_of_isInt64 (x : Int) (hx : isInt64 x) : wrap64 x = x := by
  unfold isInt64 at hx
  unfold wrap64
  have : (x + 2 ^ 63) % 2 ^ 64 = x + 2 ^ 63 := Int.emod_eq_of_lt (by omega) (by omega)
  omega

theorem tdiv_sign (a b : Int) : 0 ≤ a.tdiv b * (a * b) := by
  rcases le_total 0 a with ha | ha <;> rcases le_total 0 b with hb | hb
  · exact mul_nonneg (Int.tdiv_nonneg ha hb) (mul_nonneg ha hb)
  · have : 0 ≤ a.tdiv (-b) := Int.tdiv_nonneg ha (by omega)
    rw [Int.tdiv_neg] at this
    nlinarith [mul_nonneg ha (show 0 ≤ -b by omega)]
  · have : 0 ≤ (-a).tdiv b := Int.tdiv_nonneg (by omega) hb
    rw [Int.neg_tdiv] at this
    nlinarith [mul_nonneg (show 0 ≤ -a by omega) hb]
  · have : 0 ≤ (-a).tdiv (-b) := Int.tdiv_nonneg (by omega) (by omega)
    rw [Int.neg_tdiv, Int.tdiv_neg] at this
    nlinarith [mul_nonneg (show 0 ≤ -a by omega) (show 0 ≤ -b by omega)]

theorem tdiv_isInt64 (a b : Int) (ha : isInt64 a) (hb : b ≠ 0)
    (h : ¬ (a = -(2 ^ 63) ∧ b = -1)) : isInt64 (a.tdiv b) := by
  unfold isInt64 at *
  have h1 : (a.tdiv b).natAbs = a.natAbs / b.natAbs := Int.natAbs_tdiv a b
  have h2 : a.natAbs / b.natAbs ≤ a.natAbs := Nat.div_le_self _ _
  by_cases hb1 : b = -1
  · subst hb1
    rw [show (-1 : Int) = -(1 : Int) by rfl, Int.tdiv_neg, Int.tdiv_one]
    omega
  · by_cases hmin : a = -(2 ^ 63)
    · subst hmin
      have : 2 ≤ b.natAbs ∨ b = 1 := by omega
      rcases this with h4 | h4
      · have h5 : (-(2 ^ 63) : Int).natAbs / b.natAbs ≤ (-(2 ^ 63) : Int).natAbs / 2 :=
          Nat.div_le_div_left h4 (by norm_num)
        have e : (-(2 ^ 63) : Int).natAbs = 2 ^ 63 := by norm_num
        rw [e] at h5 h1
        omega
      · subst h4; simp
    · omega

/-- Two Integer operands are handled by `evalNumericOperation`. -/
theorem evalInfixExpression_integers (a b : Int) (la lb : Nat) (op : String) (h : Heap) :
    evalInfixExpression (.Integer la a) (.Integer lb b) op h
      = evalNumericOperation (.Integer la a) (.Integer lb b) op h := by
  simp [evalInfixExpression, bothOfType, Object.Type_, bind, Except.bind, pure, Except.pure]

theorem evalInfixExpression_arith (a b : Int) (hb0 : b ≠ 0) (la lb : Nat) (h : Heap) :
    evalInfixExpression (.Integer la a) (.Integer lb b) token.PLUS h
        = .ok (.Integer h.next (wrap64 (a + b)), { h with next := h.next + 1 })
      ∧ evalInfixExpression (.Integer la a) (.Integer lb b) token.MINUS h
        = .ok (.Integer h.next (wrap64 (a - b)), { h with next := h.next + 1 })
      ∧ evalInfixExpression (.Integer la a) (.Integer lb b) token.ASTERISK h
        = .ok (.Integer h.next (wrap64 (a * b)), { h with next := h.next + 1 })
      ∧ evalInfixExpression (.Integer la a) (.Integer lb b) token.SLASH h
        = .ok (.Integer h.next (wrap64 (a.tdiv b)), { h with next := h.next + 1 }) := by
  refine ⟨?_, ?_, ?_, ?_⟩
  · simp [evalInfixExpression_integers, evalNumericOperation, Object.integerValue, bind,
      Except.bind, pure, Except.pure, token.PLUS]
  · simp [evalInfixExpression_integers, evalNumericOperation, Object.integerValue, bind,
      Except.bind, pure, Except.pure, token.PLUS, token.MINUS]
  · simp [evalInfixExpression_integers, evalNumericOperation, Object.integerValue, bind,
      Except.bind, pure, Except.pure, token.PLUS, token.MINUS, token.ASTERISK]
  · simp [evalInfixExpression_integers, evalNumericOperation, Object.integerValue, bind,
      Except.bind, pure, Except.pure, token.PLUS, token.MINUS, token.ASTERISK, token.SLASH,
      hb0]

/-- An infix expression on two integer literals: the operands are allocated,
then `evalInfixExpression` runs. -/
theorem Eval_infix_literals (rt : Runtime) (n env : Nat) (a b : Int) (op : String) (h : Heap) :
    Eval rt (n + 2) (.InfixExpression (.IntegerLiteral a) op (.IntegerLiteral b)) env h
      = evalInfixExpression (.Integer h.next a) (.Integer (h.next + 1) b) op
          { h with next := h.next + 2 } := by
  simp [Eval, isError, Object.dynType]

/-- C1: for all 64-bit integers a and b with b ≠ 0, the infix operators
+, -, * and / on two Integer operands (and so the expressions a + b, a - b,
a * b, a / b on literals) return a freshly allocated Integer holding the
native int64 result: the mathematical result reduced into the int64 range
modulo 2^64 (`wrap64`, which is the identity on the int64 range), and for `/`
the quotient truncated toward zero (its magnitude is the floor of |a| / |b|
and its sign agrees with a * b), which is already in range unless a is the
least int64 and b = -1. -/
theorem C1_integer_arithmetic (a b : Int) (ha : isInt64 a) (_hb : isInt64 b) (hb0 : b ≠ 0)
    (la lb : Nat) (h : Heap) (rt : Runtime) (n env : Nat) :
    (evalInfixExpression (.Integer la a) (.Integer lb b) token.PLUS h
        = .ok (.Integer h.next (wrap64 (a + b)), { h with next := h.next + 1 })
      ∧ evalInfixExpression (.Integer la a) (.Integer lb b) token.MINUS h
        = .ok (.Integer h.next (wrap64 (a - b)), { h with next := h.next + 1 })
      ∧ evalInfixExpression (.Integer la a) (.Integer lb b) token.ASTERISK h
        = .ok (.Integer h.next (wrap64 (a * b)), { h with next := h.next + 1 })
      ∧ evalInfixExpression (.Integer la a) (.Integer lb b) token.SLASH h
        = .ok (.Integer h.next (wrap64 (a.tdiv b)), { h with next := h.next + 1 }))
    ∧ (Eval rt (n + 2) (.InfixExpression (.IntegerLiteral a) token.PLUS (.IntegerLiteral b)) env h
        = .ok (.Integer (h.next + 2) (wrap64 (a + b)), { h with next := h.next + 3 })
      ∧ Eval rt (n + 2) (.InfixExpression (.IntegerLiteral a) token.MINUS (.IntegerLiteral b)) env h
        = .ok (.Integer (h.next + 2) (wrap64 (a - b)), { h with next := h.next + 3 })
      ∧ Eval rt (n + 2) (.InfixExpression (.IntegerLiteral a) token.ASTERISK (.IntegerLiteral b))
          env h
        = .ok (.Integer (h.next + 2) (wrap64 (a * b)), { h with next := h.next + 3 })
      ∧ Eval rt (n + 2) (.InfixExpression (.IntegerLiteral a) token.SLASH (.IntegerLiteral b)) env h
        = .ok (.Integer (h.next + 2) (wrap64 (a.tdiv b)), { h with next := h.next + 3 }))
    ∧ (∀ x : Int, isInt64 (wrap64 x) ∧ (2 ^ 64 : Int) ∣ (wrap64 x - x)
        ∧ (isInt64 x → wrap64 x = x))
    ∧ ((a.tdiv b).natAbs = a.natAbs / b.natAbs ∧ 0 ≤ a.tdiv b * (a * b))
    ∧ (¬ (a = -(2 ^ 63) ∧ b = -1) → wrap64 (a.tdiv b) = a.tdiv b) := by
  have e := evalInfixExpression_arith a b hb0 h.next (h.next + 1) { h with next := h.next + 2 }
  refine ⟨evalInfixExpression_arith a b hb0 la lb h, ⟨?_, ?_, ?_, ?_⟩, ?_,
    ⟨Int.natAbs_tdiv a b, tdiv_sign a b⟩, ?_⟩
  · rw [Eval_infix_literals, e.1]
  · rw [Eval_infix_literals, e.2.1]
  · rw [Eval_infix_literals, e.2.2.1]
  · rw [Eval_infix_literals, e.2.2.2]
  · exact fun x => ⟨wrap64_isInt64 x, wrap64_congr x, wrap64_of_isInt64 x⟩
  · exact fun hne => wrap64_of_isInt64 _ (tdiv_isInt64 a b ha hb0 hne)

/-- C1 at a = -7, b = 2: the quotient is -3. -/
theorem C1_integer_arithmetic_witness :
    evalInfixExpression (.Integer 3 (-7)) (.Integer 4 2) token.SLASH { next := 5, envs := [] }
      = .ok (.Integer 5 (-3), { next := 6, envs := [] }) :=
  (C1_integer_arithmetic (-7) 2 (by decide) (by decide) (by decide) 3 4
    { next := 5, envs := [] } Runtime.bare 0 0).1.2.2.2

/-! ### Equality and the other infix operators -/

/-- C2, as stated, fails: on the two String operands "ab" and "ab" the
operator == yields the Error "unknown operator: STRING == STRING", not TRUE. -/
theorem C2_string_equality_counterexample :
    evalInfixExpression (.Str 3 "ab") (.Str 4 "ab") token.EQ { next := 5, envs := [] }
      = .ok (.Error 5 "unknown operator: STRING == STRING", { next := 6, envs := [] })
    ∧ ¬ ∃ h, evalInfixExpression (.Str 3 "ab") (.Str 4 "ab") token.EQ { next := 5, envs := [] }
      = .ok (TRUE, h) := by
  have e : evalInfixExpression (.Str 3 "ab") (.Str 4 "ab") token.EQ { next := 5, envs := [] }
      = .ok (.Error 5 "unknown operator: STRING == STRING", { next := 6, envs := [] }) := by
    rfl
  refine ⟨e, ?_⟩
  rintro ⟨h, hh⟩
  rw [e] at hh
  simp [TRUE] at hh

/-- C2 (amended): on two String operands == and != are not defined:
`evalStringOperation` accepts only +, so s == t and s != t return the Error
"unknown operator: STRING == STRING" (resp. "STRING != STRING") whatever the
texts are.  On two Integer operands a == b returns TRUE exactly when a = b
(FALSE otherwise) and a != b returns the negation. -/
theorem C2_equality_amended (h : Heap) :
    (∀ (la lb : Nat) (s t : String),
      evalInfixExpression (.Str la s) (.Str lb t) token.EQ h
        = .ok (newError "unknown operator: STRING == STRING" h)
      ∧ evalInfixExpression (.Str la s) (.Str lb t) token.NOT_EQ h
        = .ok (newError "unknown operator: STRING != STRING" h))
    ∧ (∀ (la lb : Nat) (a b : Int),
      evalInfixExpression (.Integer la a) (.Integer lb b) token.EQ h
        = .ok (if a = b then TRUE else FALSE, h)
      ∧ evalInfixExpression (.Integer la a) (.Integer lb b) token.NOT_EQ h
        = .ok (if a = b then FALSE else TRUE, h)) := by
  constructor
  · intro la lb s t
    constructor
    · simp [evalInfixExpression, evalStringOperation, bothOfType, Object.Type_, bind,
        Except.bind, pure, Except.pure, token.EQ, token.PLUS, ObjectType.toString]
    · simp [evalInfixExpression, evalStringOperation, bothOfType, Object.Type_, bind,
        Except.bind, pure, Except.pure, token.NOT_EQ, token.PLUS, ObjectType.toString]
  · intro la lb a b
    constructor
    · simp [evalInfixExpression_integers, evalNumericOperation, Object.integerValue, bind,
        Except.bind, pure, Except.pure, token.PLUS, token.MINUS, token.ASTERISK, token.SLASH,
        token.EQ, nativeBoolToBooleanObject]
    · simp [evalInfixExpression_integers, evalNumericOperation, Object.integerValue, bind,
        Except.bind, pure, Except.pure, token.PLUS, token.MINUS, token.ASTERISK, token.SLASH,
        token.EQ, token.NOT_EQ, nativeBoolToBooleanObject]

theorem typeOf_of_dynType {o : Object} {t : ObjectType} (h : o.dynType = some t) :
    o.Type_ = .ok t := by
  cases o <;> simp_all [Object.dynType, Object.Type_]

theorem bothOfType_of_dynType {l r : Object} {tl tr : ObjectType}
    (hl : l.dynType = some tl) (hr : r.dynType = some tr) (t : ObjectType) :
    bothOfType l r t = .ok (decide (tl = t ∧ tr = t)) := by
  simp only [bothOfType, typeOf_of_dynType hl, typeOf_of_dynType hr, bind, Except.bind, pure,
    Except.pure]
  by_cases h1 : tl = t <;> by_cases h2 : tr = t <;> simp [h1, h2]

theorem same_iff {l r : Object} {tl tr : ObjectType}
    (hl : l.dynType = some tl) (hr : r.dynType = some tr) :
    l.same r = true ↔ (tl = tr ∧ l.address = r.address) := by
  simp [Object.same, hl, hr]

/-- C3: for the operators == and !=, when the two operands (objects of types
tl and tr) are not both Integer and not both String, `evalInfixExpression`
returns one of the Boolean singletons and allocates nothing: == gives TRUE
exactly when the operands are the same instance (same dynamic type and same
address), also when the types differ, and != gives the negation.  The program
`true == true` yields TRUE (both literals evaluate to the shared singleton)
and the program `[1,2] == [1,2]` yields FALSE (the two array literals are
separate allocations). -/
theorem C3_identity_equality (l r : Object) (tl tr : ObjectType)
    (hl : l.dynType = some tl) (hr : r.dynType = some tr)
    (hI : ¬ (tl = .INTEGER_OBJ ∧ tr = .INTEGER_OBJ))
    (hS : ¬ (tl = .STRING_OBJ ∧ tr = .STRING_OBJ)) (h : Heap) (rt : Runtime) (env : Nat) :
    evalInfixExpression l r token.EQ h = .ok (if l.same r then TRUE else FALSE, h)
    ∧ evalInfixExpression l r token.NOT_EQ h = .ok (if l.same r then FALSE else TRUE, h)
    ∧ (l.same r = true ↔ (tl = tr ∧ l.address = r.address))
    ∧ Eval rt 2 (.InfixExpression (.Boolean true) token.EQ (.Boolean true)) env h
        = .ok (TRUE, h)
    ∧ Eval rt 4 (.InfixExpression (.ArrayLiteral [.IntegerLiteral 1, .IntegerLiteral 2])
          token.EQ (.ArrayLiteral [.IntegerLiteral 1, .IntegerLiteral 2])) env h
        = .ok (FALSE, { h with next := h.next + 6 }) := by
  refine ⟨?_, ?_, same_iff hl hr, rfl, ?_⟩
  · simp [evalInfixExpression, bothOfType_of_dynType hl hr, hI, hS, bind, Except.bind, pure,
      Except.pure, nativeBoolToBooleanObject]
  · simp [evalInfixExpression, bothOfType_of_dynType hl hr, hI, hS, bind, Except.bind, pure,
      Except.pure, nativeBoolToBooleanObject, token.EQ, token.NOT_EQ]
    cases l.same r <;> simp
  · simp [Eval, evalExpressions, isError, Object.dynType, evalInfixExpression, bothOfType,
      Object.Type_, bind, Except.bind, pure, Except.pure, nativeBoolToBooleanObject,
      Object.same, Object.address]

/-- C3 at the operands TRUE and TRUE (the shared singleton): == gives TRUE. -/
theorem C3_identity_equality_witness :
    evalInfixExpression TRUE TRUE token.EQ Heap.initial = .ok (TRUE, Heap.initial) :=
  (C3_identity_equality TRUE TRUE .BOOLEAN_OBJ .BOOLEAN_OBJ rfl rfl (by decide) (by decide)
    Heap.initial ⟨fun _ => 0, fun _ => 0, fun _ => 0, [], fun _ _ h => .ok (.nil, h)⟩ 0).1

/-- C4: for every operator other than == and != and every pair of operands of
types tl and tr: when the types differ the result is the Error
"type mismatch: tl op tr"; when they are equal and neither Integer nor String
the result is the Error "unknown operator: tl op tr". -/
theorem C4_infix_errors (l r : Object) (tl tr : ObjectType)
    (hl : l.dynType = some tl) (hr : r.dynType = some tr)
    (op : String) (hEQ : op ≠ token.EQ) (hNE : op ≠ token.NOT_EQ) (h : Heap) :
    (tl ≠ tr → evalInfixExpression l r op h
      = .ok (newError ("type mismatch: " ++ tl.toString ++ " " ++ op ++ " " ++ tr.toString) h))
    ∧ (tl = tr → tl ≠ .INTEGER_OBJ → tl ≠ .STRING_OBJ → evalInfixExpression l r op h
      = .ok (newError
          ("unknown operator: " ++ tl.toString ++ " " ++ op ++ " " ++ tr.toString) h)) := by
  constructor
  · intro hne
    have hI : ¬ (tl = .INTEGER_OBJ ∧ tr = .INTEGER_OBJ) := by
      rintro ⟨a, b⟩; exact hne (a.trans b.symm)
    have hS : ¬ (tl = .STRING_OBJ ∧ tr = .STRING_OBJ) := by
      rintro ⟨a, b⟩; exact hne (a.trans b.symm)
    simp [evalInfixExpression, bothOfType_of_dynType hl hr, hI, hS, bind, Except.bind, pure,
      Except.pure, hEQ, hNE, typeOf_of_dynType hl, typeOf_of_dynType hr, hne]
  · intro he h1 h2
    subst he
    simp [evalInfixExpression, bothOfType_of_dynType hl hr, bind, Except.bind, pure,
      Except.pure, hEQ, hNE, typeOf_of_dynType hl, typeOf_of_dynType hr, h1, h2]

/-- C4 at `1 + "a"`: the Error "type mismatch: INTEGER + STRING". -/
theorem C4_infix_errors_witness :
    evalInfixExpression (.Integer 3 1) (.Str 4 "a") token.PLUS { next := 5, envs := [] }
      = .ok (.Error 5 "type mismatch: INTEGER + STRING", { next := 6, envs := [] }) :=
  (C4_infix_errors (.Integer 3 1) (.Str 4 "a") .INTEGER_OBJ .STRING_OBJ rfl rfl token.PLUS
    (by decide) (by decide) { next := 5, envs := [] }).1 (by decide)

/-! ### The prefix operator ! -/

/-- C5: `evalBangOperator` returns FALSE for TRUE, TRUE for FALSE (and for any
Boolean object the singleton of the negated value), FALSE for every non-zero
Integer and TRUE for Integer 0; for an operand of any other type t it returns
the Error "undefined behavior with ! operator and t".  Applying it twice to a
Boolean singleton gives the singleton back. -/
theorem C5_bang_operator (h : Heap) :
    evalBangOperator TRUE h = .ok (FALSE, h)
    ∧ evalBangOperator FALSE h = .ok (TRUE, h)
    ∧ (∀ (a : Nat) (v : Bool),
        evalBangOperator (.Boolean a v) h = .ok (nativeBoolToBooleanObject (!v), h))
    ∧ (∀ (a : Nat) (v : Int), v ≠ 0 → evalBangOperator (.Integer a v) h = .ok (FALSE, h))
    ∧ (∀ a : Nat, evalBangOperator (.Integer a 0) h = .ok (TRUE, h))
    ∧ (∀ (o : Object) (t : ObjectType), o.dynType = some t → t ≠ .BOOLEAN_OBJ →
        t ≠ .INTEGER_OBJ → evalBangOperator o h
          = .ok (newError ("undefined behavior with ! operator and " ++ t.toString) h))
    ∧ (∀ b : Object, b = TRUE ∨ b = FALSE →
        (evalBangOperator b h >>= fun r => evalBangOperator r.1 r.2) = .ok (b, h)) := by
  refine ⟨rfl, rfl, ?_, ?_, ?_, ?_, ?_⟩
  · intro a v
    simp [evalBangOperator, Object.Type_, Object.booleanValue, bind, Except.bind, pure,
      Except.pure]
  · intro a v hv
    simp [evalBangOperator, Object.Type_, Object.integerValue, bind, Except.bind, pure,
      Except.pure, nativeBoolToBooleanObject, hv]
  · intro a
    simp [evalBangOperator, Object.Type_, Object.integerValue, bind, Except.bind, pure,
      Except.pure, nativeBoolToBooleanObject]
  · intro o t ho h1 h2
    simp [evalBangOperator, typeOf_of_dynType ho, bind, Except.bind, pure, Except.pure, h1, h2]
  · rintro b (rfl | rfl) <;> rfl

/-- C5 at the operands Integer 5 and an Array: FALSE, and the Error naming the
type ARRAY. -/
theorem C5_bang_operator_witness :
    evalBangOperator (.Integer 7 5) Heap.initial = .ok (FALSE, Heap.initial)
    ∧ evalBangOperator (.Array 7 []) Heap.initial
      = .ok (.Error 3 "undefined behavior with ! operator and ARRAY", { next := 4, envs := [] }) :=
  ⟨(C5_bang_operator Heap.initial).2.2.2.1 7 5 (by decide),
   (C5_bang_operator Heap.initial).2.2.2.2.2.1 (.Array 7 []) .ARRAY_OBJ rfl (by decide)
     (by decide)⟩

/-! ### If expressions -/

theorem same_integer (a : Nat) (v : Int) :
    (Object.Integer a v).same NULL = false ∧ (Object.Integer a v).same TRUE = false
      ∧ (Object.Integer a v).same FALSE = false := by
  simp [Object.same, Object.dynType, NULL, TRUE, FALSE]

theorem isError_iff (c : Object) :
    isError c = true ↔ ∃ (a : Nat) (m : String), c = .Error a m := by
  cases c <;> simp [isError, Object.dynType]

theorem isError_eq_false_of_dynType {c : Object} (hne : c.dynType ≠ some .ERROR_OBJ) :
    isError c = false := by
  cases c <;> simp_all [isError, Object.dynType]

/-- C6: let the condition of an IfExpression evaluate to the object c.  If c
is an Error object, the IfExpression returns that Error and the heap as the
condition left it, whatever the branches are (no branch is evaluated); only
Error objects are treated so.  If c is the NULL or the FALSE singleton the
result is that of the alternative block when there is one and NULL when there
is none; for every other c that is not an Error, every Integer among them,
the result is that of the consequence block.  The program
`if (0) { 1 } else { 2 }` evaluates to Integer 1; the program
`if (foo) { 1 } else { 2 }` with `foo` unbound evaluates to the Error
"identifier not found: foo", nothing being allocated after it. -/
theorem C6_if_expression (rt : Runtime) (fuel : Nat) (Condition : Node)
    (Consequence : List Node) (Alternative : Option (List Node)) (env : Nat) (h h1 : Heap)
    (c : Object) (hc : Eval rt fuel Condition env h = .ok (c, h1)) :
    (∀ (a : Nat) (m : String), c = .Error a m →
      Eval rt (fuel + 1) (.IfExpression Condition Consequence Alternative) env h
        = .ok (.Error a m, h1))
    ∧ (∀ o : Object, isError o = true ↔ ∃ (a : Nat) (m : String), o = .Error a m)
    ∧ ((c.same NULL = true ∨ c.same FALSE = true) →
      Eval rt (fuel + 1) (.IfExpression Condition Consequence Alternative) env h
        = match Alternative with
          | some alt => Eval rt fuel (.BlockStatement alt) env h1
          | none => .ok (NULL, h1))
    ∧ (c.dynType ≠ some .ERROR_OBJ → c.same NULL = false → c.same FALSE = false →
      Eval rt (fuel + 1) (.IfExpression Condition Consequence Alternative) env h
        = Eval rt fuel (.BlockStatement Consequence) env h1)
    ∧ (∀ (a : Nat) (v : Int), c = .Integer a v →
      Eval rt (fuel + 1) (.IfExpression Condition Consequence Alternative) env h
        = Eval rt fuel (.BlockStatement Consequence) env h1)
    ∧ (∀ n : Nat, Eval rt (n + 6) programIfZero env h
        = .ok (.Integer (h.next + 1) 1, { h with next := h.next + 2 }))
    ∧ (∀ n : Nat, Eval Runtime.bare (n + 4) programIfUnbound 0 Heap.start
        = .ok (.Error 3 "identifier not found: foo", { Heap.start with next := 4 })) := by
  have key : Eval rt (fuel + 1) (.IfExpression Condition Consequence Alternative) env h
      = evalIfExpression (Eval rt fuel) Condition Consequence Alternative env h := rfl
  refine ⟨?_, isError_iff, ?_, ?_, ?_, ?_, ?_⟩
  · rintro a m rfl
    simp [key, evalIfExpression, hc, isError, Object.dynType]
  · intro hs
    have he : isError c = false := by
      apply isError_eq_false_of_dynType
      rcases hs with hs | hs <;> cases c <;>
        simp_all [Object.same, Object.dynType, NULL, FALSE]
    have : isTruthy c = false := by
      rcases hs with hs | hs
      · simp [isTruthy, hs]
      · by_cases h0 : c.same NULL = true
        · simp [isTruthy, h0]
        · cases c <;>
            simp_all [isTruthy, Object.same, Object.dynType, NULL, TRUE, FALSE, Object.address]
    simp [key, evalIfExpression, hc, he, this]
  · intro hne h1 h2
    have he := isError_eq_false_of_dynType hne
    have : isTruthy c = true := by
      simp [isTruthy, h1, h2]
    simp [key, evalIfExpression, hc, he, this]
  · rintro a v rfl
    have h3 := same_integer a v
    simp [key, evalIfExpression, hc, isError, Object.dynType, isTruthy, h3]
  · intro n
    rfl
  · intro n
    rfl

/-- C6 at the condition `0`: the consequence block is evaluated; and at the
unbound condition `foo`: the Error of the condition is the result. -/
theorem C6_if_expression_witness :
    Eval Runtime.bare 4 (.IfExpression (.IntegerLiteral 0)
        [.ExpressionStatement (.IntegerLiteral 1)]
        (some [.ExpressionStatement (.IntegerLiteral 2)])) 0 Heap.start
      = Eval Runtime.bare 3 (.BlockStatement [.ExpressionStatement (.IntegerLiteral 1)]) 0
          { Heap.start with next := 4 }
    ∧ Eval Runtime.bare 2 (.IfExpression (.Identifier "foo")
        [.ExpressionStatement (.IntegerLiteral 1)]
        (some [.ExpressionStatement (.IntegerLiteral 2)])) 0 Heap.start
      = .ok (.Error 3 "identifier not found: foo", { Heap.start with next := 4 }) :=
  ⟨(C6_if_expression Runtime.bare 3 (.IntegerLiteral 0)
      [.ExpressionStatement (.IntegerLiteral 1)]
      (some [.ExpressionStatement (.IntegerLiteral 2)]) 0 Heap.start
      { Heap.start with next := 4 } (.Integer 3 0) rfl).2.2.2.2.1 3 0 rfl,
   (C6_if_expression Runtime.bare 1 (.Identifier "foo")
      [.ExpressionStatement (.IntegerLiteral 1)]
      (some [.ExpressionStatement (.IntegerLiteral 2)]) 0 Heap.start
      { Heap.start with next := 4 } (.Error 3 "identifier not found: foo") rfl).1 3 _ rfl⟩

/-- C7, as stated, fails: with whatever fuel, the program
`if (!0) { 1 } else { 2 }` does not evaluate to an Integer 2; with enough fuel
it evaluates to Integer 1. -/
theorem C7_if_not_zero_counterexample :
    Eval Runtime.bare 6 programIfNotZero 0 Heap.start
      = .ok (.Integer 4 1, { Heap.start with next := 5 })
    ∧ ¬ ∃ (fuel a : Nat) (h : Heap),
        Eval Runtime.bare fuel programIfNotZero 0 Heap.start = .ok (.Integer a 2, h) := by
  refine ⟨rfl, ?_⟩
  rintro ⟨fuel, a, h, hh⟩
  have h6 : ∀ n : Nat, Eval Runtime.bare (n + 6) programIfNotZero 0 Heap.start
      = .ok (.Integer 4 1, { Heap.start with next := 5 }) := fun n => rfl
  rcases fuel with _ | _ | _ | _ | _ | _ | n
  · exact absurd hh (by simp [Eval])
  · exact absurd hh (by simp [Eval, programIfNotZero, evalProgram])
  · exact absurd hh (by simp [Eval, programIfNotZero, evalProgram])
  · exact absurd hh (by simp [Eval, programIfNotZero, evalProgram, evalIfExpression])
  · exact absurd hh (by simp [Eval, programIfNotZero, evalProgram, evalIfExpression])
  · exact absurd hh (by
      simp [Eval, programIfNotZero, evalProgram, evalIfExpression, evalPrefix,
        evalBangOperator, Object.Type_, Object.integerValue, bind, Except.bind, pure,
        Except.pure, isError, nativeBoolToBooleanObject, TRUE, Object.dynType, isTruthy,
        Object.same, NULL, Object.address, evalBlockStatement, token.BANG])
  · rw [h6 n] at hh
    simp at hh

/-- C7 (amended): the program `if (!0) { 1 } else { 2 }` evaluates to
Integer 1: `!0` is TRUE, which is truthy, so the consequence is evaluated. -/
theorem C7_if_not_zero_amended (rt : Runtime) (env : Nat) (h : Heap) (n : Nat) :
    Eval rt (n + 6) programIfNotZero env h
      = .ok (.Integer (h.next + 1) 1, { h with next := h.next + 2 })
    ∧ Eval rt (n + 2) (.PrefixExpression token.BANG (.IntegerLiteral 0)) env h
      = .ok (TRUE, { h with next := h.next + 1 }) :=
  ⟨rfl, rfl⟩

/-! ### Index expressions -/

theorem evalIndexExpression_array (rt : Runtime) (a ia : Nat) (elements : List Object)
    (i : Int) (h : Heap) :
    evalIndexExpression rt (.Array a elements) (.Integer ia i) h
      = if i < 0 ∨ i > (elements.length : Int) - 1 then .ok (NULL, h)
        else match elements[i.toNat]? with
          | some e => .ok (e, h)
          | none => .error .indexOutOfRange := by
  simp only [evalIndexExpression, arrayAndInteger, Object.Type_, Object.integerValue, bind,
    Except.bind, pure, Except.pure]
  simp
  split <;> rfl

/-- C8: for every Array with elements e_0..e_{n-1} (n ≥ 0) and every Integer
index i, `evalIndexExpression` returns e_i when 0 ≤ i < n and the NULL
singleton when i < 0 or i ≥ n; in both cases without fault and without
allocating (so no Error object is made).  The program `[1, 2, 3][5]`
evaluates to NULL. -/
theorem C8_array_index (rt : Runtime) (a ia : Nat) (elements : List Object) (h : Heap) :
    (∀ (n : Nat) (hn : n < elements.length),
      evalIndexExpression rt (.Array a elements) (.Integer ia (n : Int)) h
        = .ok (elements[n], h))
    ∧ (∀ i : Int, (i < 0 ∨ (elements.length : Int) ≤ i) →
      evalIndexExpression rt (.Array a elements) (.Integer ia i) h = .ok (NULL, h))
    ∧ (∀ (n env : Nat), Eval rt (n + 5) programIndexOutOfRange env h
        = .ok (NULL, { h with next := h.next + 5 })) := by
  refine ⟨?_, ?_, ?_⟩
  · intro n hn
    rw [evalIndexExpression_array]
    have h1 : ¬ ((n : Int) < 0 ∨ (n : Int) > (elements.length : Int) - 1) := by omega
    simp [h1, hn]
  · intro i hi
    rw [evalIndexExpression_array]
    have h1 : (i < 0 ∨ i > (elements.length : Int) - 1) := by omega
    simp [h1]
  · intro n env
    rfl

/-- C8 on the array [1, 2, 3]: index 1 gives the element 2, the indices 5 and
-1 give NULL. -/
theorem C8_array_index_witness :
    evalIndexExpression Runtime.bare (.Array 6 oneTwoThree) (.Integer 7 1) Heap.start
      = .ok (.Integer 4 2, Heap.start)
    ∧ evalIndexExpression Runtime.bare (.Array 6 oneTwoThree) (.Integer 7 5) Heap.start
      = .ok (NULL, Heap.start)
    ∧ evalIndexExpression Runtime.bare (.Array 6 oneTwoThree) (.Integer 7 (-1)) Heap.start
      = .ok (NULL, Heap.start) :=
  ⟨(C8_array_index Runtime.bare 6 7 oneTwoThree Heap.start).1 1 (by decide),
   (C8_array_index Runtime.bare 6 7 oneTwoThree Heap.start).2.1 5 (by decide),
   (C8_array_index Runtime.bare 6 7 oneTwoThree Heap.start).2.1 (-1) (by decide)⟩

/-- C9, as stated, fails: a Hash indexed by an Array yields the Error
"unusable as hash key: ARRAY", not "index operator not supported: HASH". -/
theorem C9_hash_index_counterexample :
    evalIndexExpression Runtime.bare (.Hash 3 []) (.Array 4 []) { next := 5, envs := [] }
      = .ok (.Error 5 "unusable as hash key: ARRAY", { next := 6, envs := [] })
    ∧ ¬ ∃ (a : Nat) (h : Heap),
      evalIndexExpression Runtime.bare (.Hash 3 []) (.Array 4 []) { next := 5, envs := [] }
        = .ok (.Error a "index operator not supported: HASH", h) := by
  have e : evalIndexExpression Runtime.bare (.Hash 3 []) (.Array 4 []) { next := 5, envs := [] }
      = .ok (.Error 5 "unusable as hash key: ARRAY", { next := 6, envs := [] }) := rfl
  refine ⟨e, ?_⟩
  rintro ⟨a, h, hh⟩
  rw [e] at hh
  simp at hh

/-- C9 (amended): for a left operand of type tl and an index of type ti: an
Array indexed by a non-Integer, and a left operand that is neither an Array
nor a Hash, yield the Error "index operator not supported: tl"; a Hash
indexed by a value that is not Hashable (not an Integer, Boolean or String)
yields the Error "unusable as hash key: ti". -/
theorem C9_index_errors_amended (rt : Runtime) (left index : Object) (tl ti : ObjectType)
    (hl : left.dynType = some tl) (hi : index.dynType = some ti) (h : Heap) :
    (tl = .ARRAY_OBJ → ti ≠ .INTEGER_OBJ → evalIndexExpression rt left index h
      = .ok (newError "index operator not supported: ARRAY" h))
    ∧ (tl ≠ .ARRAY_OBJ → tl ≠ .HASH_OBJ → evalIndexExpression rt left index h
      = .ok (newError ("index operator not supported: " ++ tl.toString) h))
    ∧ (tl = .HASH_OBJ → ti ≠ .INTEGER_OBJ → ti ≠ .BOOLEAN_OBJ → ti ≠ .STRING_OBJ →
      evalIndexExpression rt left index h
        = .ok (newError ("unusable as hash key: " ++ ti.toString) h)) := by
  have hlt := typeOf_of_dynType hl
  have hit := typeOf_of_dynType hi
  refine ⟨?_, ?_, ?_⟩
  · intro h1 h2
    subst h1
    simp [evalIndexExpression, arrayAndInteger, hlt, hit, bind, Except.bind, pure,
      Except.pure, h2, ObjectType.toString]
  · intro h1 h2
    simp [evalIndexExpression, arrayAndInteger, hlt, hit, bind, Except.bind, pure,
      Except.pure, h1, h2]
  · intro h1 h2 h3 h4
    subst h1
    cases left <;> simp [Object.dynType] at hl
    cases index <;>
      simp_all [Object.dynType, evalIndexExpression, arrayAndInteger, Object.Type_, bind,
        Except.bind, pure, Except.pure, evalHashIndexExpression, hashKey]

/-- C9 (amended) at an Array indexed by a String, an Integer indexed by an
Integer and a Hash indexed by an Array. -/
theorem C9_index_errors_amended_witness :
    evalIndexExpression Runtime.bare (.Array 3 []) (.Str 4 "x") { next := 5, envs := [] }
      = .ok (.Error 5 "index operator not supported: ARRAY", { next := 6, envs := [] })
    ∧ evalIndexExpression Runtime.bare (.Integer 3 1) (.Integer 4 0) { next := 5, envs := [] }
      = .ok (.Error 5 "index operator not supported: INTEGER", { next := 6, envs := [] })
    ∧ evalIndexExpression Runtime.bare (.Hash 3 []) (.Array 4 []) { next := 5, envs := [] }
      = .ok (.Error 5 "unusable as hash key: ARRAY", { next := 6, envs := [] }) :=
  ⟨(C9_index_errors_amended Runtime.bare (.Array 3 []) (.Str 4 "x") .ARRAY_OBJ .STRING_OBJ
      rfl rfl { next := 5, envs := [] }).1 rfl (by decide),
   (C9_index_errors_amended Runtime.bare (.Integer 3 1) (.Integer 4 0) .INTEGER_OBJ
      .INTEGER_OBJ rfl rfl { next := 5, envs := [] }).2.1 (by decide) (by decide),
   (C9_index_errors_amended Runtime.bare (.Hash 3 []) (.Array 4 []) .HASH_OBJ .ARRAY_OBJ
      rfl rfl { next := 5, envs := [] }).2.2 rfl (by decide) (by decide) (by decide)⟩

/-! ### Hashes -/

theorem hashStringInjective_injective : Function.Injective hashStringInjective := by
  intro s t h
  unfold hashStringInjective at h
  have h1 := Encodable.encode_injective h
  have h2 : s.data = t.data := by
    refine List.map_injective_iff.mpr ?_ h1
    intro a b hab
    have := congrArg Char.ofNat hab
    simpa using this
  exact String.ext h2

theorem mapGet_mapSet {κ ν : Type} [DecidableEq κ] (m : List (κ × ν)) (k k' : κ) (v : ν) :
    mapGet (mapSet m k v) k' = if k = k' then some v else mapGet m k' := by
  induction m with
  | nil => simp [mapSet, mapGet]
  | cons e rest ih =>
    obtain ⟨k0, v0⟩ := e
    by_cases h0 : k0 = k
    · subst h0
      by_cases h1 : k0 = k' <;> simp [mapSet, mapGet, h1]
    · simp only [mapSet, h0, if_false, mapGet, ih]
      by_cases h1 : k0 = k'
      · subst h1
        have : ¬ k = k0 := fun e => h0 e.symm
        simp [this]
      · simp [h1]

/-- Keys of Hashable objects agree exactly when the contents agree. -/
theorem hashKey_eq_iff (rt : Runtime) (hInt : Function.Injective rt.hashInteger)
    (hBool : Function.Injective rt.hashBoolean) (hStr : Function.Injective rt.hashString)
    (a b : Object) (ka : HashKey) (cb : Content) (ha : hashKey rt a = some ka)
    (hb : b.content = some cb) :
    hashKey rt b = some ka ↔ a.content = some cb := by
  cases a <;> simp [hashKey] at ha <;> cases b <;> simp [Object.content] at hb <;>
    subst ha <;> subst hb <;> simp [hashKey, Object.content]
  · exact ⟨fun e => (hInt e).symm, fun e => by rw [e]⟩
  · exact ⟨fun e => (hBool e).symm, fun e => by rw [e]⟩
  · exact ⟨fun e => (hStr e).symm, fun e => by rw [e]⟩

theorem hashKey_of_content (rt : Runtime) (b : Object) (cb : Content)
    (hb : b.content = some cb) : ∃ kb, hashKey rt b = some kb := by
  cases b <;> simp [Object.content] at hb <;> simp [hashKey]

/-- The map built by the loop of `evalHashLiteral`, read at the key of an
object of content c. -/
theorem evalHashLiteral_lookup (rt : Runtime) (hInt : Function.Injective rt.hashInteger)
    (hBool : Function.Injective rt.hashBoolean) (hStr : Function.Injective rt.hashString)
    (ev : Node → Nat → Heap → Res) (k : Object) (kk : HashKey) (c : Content)
    (hk : hashKey rt k = some kk) (hc : k.content = some c) :
    ∀ (pairs : List (Node × Node)) (acc : List (HashKey × Object × Object)) (env : Nat)
      (h h' : Heap) (a : Nat) (m : List (HashKey × Object × Object)),
      evalHashLiteral rt ev pairs acc env h = .ok (.Hash a m, h') →
      mapGet m kk
        = match (hashLiteralTrace ev pairs env h).reverse.find?
            (fun p => decide (p.1.content = some c)) with
          | some p => some (p.1, p.2)
          | none => mapGet acc kk := by
  intro pairs
  induction pairs with
  | nil =>
    intro acc env h h' a m hm
    simp [evalHashLiteral] at hm
    simp [hashLiteralTrace, hm.1.2]
  | cons p rest ih =>
    intro acc env h h' a m hm
    obtain ⟨keyNode, valueNode⟩ := p
    simp only [evalHashLiteral] at hm
    cases hK : ev keyNode env h with
    | error f => simp [hK] at hm
    | ok r1 =>
      obtain ⟨key, h1⟩ := r1
      simp only [hK] at hm
      by_cases hE : isError key = true
      · simp [hE] at hm
        rw [hm.1] at hE
        simp [isError, Object.dynType] at hE
      · simp only [hE] at hm
        cases hH : hashKey rt key with
        | none =>
          simp only [hH] at hm
          cases hT : key.Type_ with
          | error f => simp [hT] at hm
          | ok t => simp [hT, newError] at hm
        | some hashed =>
          simp only [hH] at hm
          cases hV : ev valueNode env h1 with
          | error f => simp [hV] at hm
          | ok r2 =>
            obtain ⟨value, h2⟩ := r2
            simp only [hV] at hm
            by_cases hE2 : isError value = true
            · simp [hE2] at hm
              rw [hm.1] at hE2
              simp [isError, Object.dynType] at hE2
            · simp only [hE2] at hm
              have := ih _ env h2 h' a m hm
              rw [this]
              simp only [hashLiteralTrace, hK, hV, List.reverse_cons, List.find?_append]
              cases hF : List.find? (fun p => decide (p.1.content = some c))
                  (hashLiteralTrace ev rest env h2).reverse with
              | some q => simp
              | none =>
                simp only [Option.none_or, List.find?_cons, List.find?_nil]
                rw [mapGet_mapSet]
                have hiff := hashKey_eq_iff rt hInt hBool hStr key k hashed c hH hc
                by_cases hc2 : key.content = some c
                · have : hashed = kk := by
                    have := hiff.mpr hc2
                    rw [hk] at this
                    exact (Option.some.inj this).symm
                  simp [hc2, this]
                · have : ¬ hashed = kk := by
                    intro e
                    apply hc2
                    apply hiff.mp
                    rw [hk, e]
                  simp [hc2, this]


theorem evalHashLiteral_trace_length (rt : Runtime) (ev : Node → Nat → Heap → Res) :
    ∀ (pairs : List (Node × Node)) (acc : List (HashKey × Object × Object)) (env : Nat)
      (h h' : Heap) (a : Nat) (m : List (HashKey × Object × Object)),
      evalHashLiteral rt ev pairs acc env h = .ok (.Hash a m, h') →
      (hashLiteralTrace ev pairs env h).length = pairs.length := by
  intro pairs
  induction pairs with
  | nil => intros; rfl
  | cons p rest ih =>
    intro acc env h h' a m hm
    obtain ⟨keyNode, valueNode⟩ := p
    simp only [evalHashLiteral] at hm
    cases hK : ev keyNode env h with
    | error f => simp [hK] at hm
    | ok r1 =>
      obtain ⟨key, h1⟩ := r1
      simp only [hK] at hm
      by_cases hE : isError key = true
      · simp [hE] at hm
        rw [hm.1] at hE
        simp [isError, Object.dynType] at hE
      · simp only [hE] at hm
        cases hH : hashKey rt key with
        | none =>
          simp only [hH] at hm
          cases hT : key.Type_ with
          | error f => simp [hT] at hm
          | ok t => simp [hT, newError] at hm
        | some hashed =>
          simp only [hH] at hm
          cases hV : ev valueNode env h1 with
          | error f => simp [hV] at hm
          | ok r2 =>
            obtain ⟨value, h2⟩ := r2
            simp only [hV] at hm
            by_cases hE2 : isError value = true
            · simp [hE2] at hm
              rw [hm.1] at hE2
              simp [isError, Object.dynType] at hE2
            · simp only [hE2] at hm
              have := ih _ env h2 h' a m hm
              simp [hashLiteralTrace, hK, hV, this]

theorem lastValueFor_none (trace : List (Object × Object)) (c : Content)
    (hno : ∀ p ∈ trace, p.1.content ≠ some c) : lastValueFor trace c = NULL := by
  unfold lastValueFor
  have : trace.reverse.find? (fun p => decide (p.1.content = some c)) = none := by
    rw [List.find?_eq_none]
    intro p hp
    simpa using hno p (List.mem_reverse.mp hp)
  rw [this]

theorem lastValueFor_some (trace : List (Object × Object)) (c : Content)
    (hex : ∃ p ∈ trace, p.1.content = some c) :
    ∃ p ∈ trace, p.1.content = some c ∧ lastValueFor trace c = p.2 := by
  unfold lastValueFor
  cases hF : trace.reverse.find? (fun p => decide (p.1.content = some c)) with
  | none =>
    rw [List.find?_eq_none] at hF
    obtain ⟨p, hp, hpc⟩ := hex
    have := hF p (List.mem_reverse.mpr hp)
    simp [hpc] at this
  | some q =>
    refine ⟨q, List.mem_reverse.mp (List.mem_of_find?_eq_some hF), ?_, rfl⟩
    simpa using List.find?_some hF

/-- C10, as stated, fails for a key derivation with collisions, which the
spec's words admit: when the strings "a" and "b" have the same `HashKey`,
`{"a": 1}["b"]` is Integer 1, not NULL, although no key has the content
"b". -/
theorem C10_hash_lookup_counterexample :
    Runtime.colliding.hashString "a" = Runtime.colliding.hashString "b"
    ∧ Eval Runtime.colliding 3 (hashAOneAt "b") 0 Heap.start
      = .ok (.Integer 4 1, { Heap.start with next := 7 })
    ∧ ¬ ∃ h : Heap, Eval Runtime.colliding 3 (hashAOneAt "b") 0 Heap.start = .ok (NULL, h) := by
  have e : Eval Runtime.colliding 3 (hashAOneAt "b") 0 Heap.start
      = .ok (.Integer 4 1, { Heap.start with next := 7 }) := by
    rfl
  refine ⟨by decide, e, ?_⟩
  rintro ⟨h, hh⟩
  rw [e] at hh
  simp [NULL] at hh

/-- C10 (amended): let the key derivation have no collisions (distinct
contents give distinct `HashKey` values), let a HashLiteral evaluate to a
Hash, and let k be
a Hashable index of content c.  Then every pair of the literal was evaluated
(the trace has as many entries as the literal has pairs), and indexing the
Hash by k returns, without fault and without allocating, the value of the
pair whose key has the content c (the last such pair in the order of the
loop, whatever the addresses of the key objects), and the NULL singleton
when no key has that content.  `{"a": 1}["a"]` is Integer 1 and
`{"a": 1}["b"]` is NULL. -/
theorem C10_hash_lookup (rt : Runtime) (hInt : Function.Injective rt.hashInteger)
    (hBool : Function.Injective rt.hashBoolean) (hStr : Function.Injective rt.hashString)
    (fuel : Nat) (Pairs : List (Node × Node)) (env : Nat) (h h' : Heap) (a : Nat)
    (m : List (HashKey × Object × Object))
    (hbuilt : Eval rt (fuel + 1) (.HashLiteral Pairs) env h = .ok (.Hash a m, h'))
    (k : Object) (c : Content) (hc : k.content = some c) (h2 : Heap) :
    (hashLiteralTrace (Eval rt fuel) Pairs env h).length = Pairs.length
    ∧ evalHashIndexExpression rt (.Hash a m) k h2
        = .ok (lastValueFor (hashLiteralTrace (Eval rt fuel) Pairs env h) c, h2)
    ∧ evalIndexExpression rt (.Hash a m) k h2
        = .ok (lastValueFor (hashLiteralTrace (Eval rt fuel) Pairs env h) c, h2)
    ∧ ((∀ p ∈ hashLiteralTrace (Eval rt fuel) Pairs env h, p.1.content ≠ some c) →
        evalIndexExpression rt (.Hash a m) k h2 = .ok (NULL, h2))
    ∧ ((∃ p ∈ hashLiteralTrace (Eval rt fuel) Pairs env h, p.1.content = some c) →
        ∃ p ∈ hashLiteralTrace (Eval rt fuel) Pairs env h, p.1.content = some c
          ∧ evalIndexExpression rt (.Hash a m) k h2 = .ok (p.2, h2))
    ∧ (∀ (n env0 : Nat) (h0 : Heap), Eval rt (n + 3) (hashAOneAt "a") env0 h0
        = .ok (.Integer (h0.next + 1) 1, { h0 with next := h0.next + 4 }))
    ∧ (∀ (n env0 : Nat) (h0 : Heap), Eval rt (n + 3) (hashAOneAt "b") env0 h0
        = .ok (NULL, { h0 with next := h0.next + 4 })) := by
  have hb : evalHashLiteral rt (Eval rt fuel) Pairs [] env h = .ok (.Hash a m, h') := hbuilt
  obtain ⟨kk, hk⟩ := hashKey_of_content rt k c hc
  have hget := evalHashLiteral_lookup rt hInt hBool hStr (Eval rt fuel) k kk c hk hc
    Pairs [] env h h' a m hb
  have e1 : evalHashIndexExpression rt (.Hash a m) k h2
      = .ok (lastValueFor (hashLiteralTrace (Eval rt fuel) Pairs env h) c, h2) := by
    simp only [evalHashIndexExpression, hk, hget, lastValueFor]
    cases List.find? (fun p => decide (p.1.content = some c))
        (hashLiteralTrace (Eval rt fuel) Pairs env h).reverse <;> simp [mapGet, pure, Except.pure]
  have e2 : evalIndexExpression rt (.Hash a m) k h2
      = evalHashIndexExpression rt (.Hash a m) k h2 := by
    simp [evalIndexExpression, arrayAndInteger, Object.Type_, bind, Except.bind, pure,
      Except.pure]
  refine ⟨evalHashLiteral_trace_length rt _ Pairs [] env h h' a m hb, e1, e2.trans e1, ?_, ?_,
    ?_, ?_⟩
  · intro hno
    rw [e2, e1, lastValueFor_none _ _ hno]
  · intro hex
    obtain ⟨p, hp, hpc, hv⟩ := lastValueFor_some _ _ hex
    exact ⟨p, hp, hpc, by rw [e2, e1, hv]⟩
  · intro n env0 h0
    simp [hashAOneAt, Eval, evalHashLiteral, isError, Object.dynType, hashKey, mapSet,
      evalIndexExpression, arrayAndInteger, Object.Type_, bind, Except.bind, pure, Except.pure,
      evalHashIndexExpression, mapGet]
  · intro n env0 h0
    have hne : rt.hashString "a" ≠ rt.hashString "b" := hStr.ne (by decide)
    simp [hashAOneAt, Eval, evalHashLiteral, isError, Object.dynType, hashKey, mapSet,
      evalIndexExpression, arrayAndInteger, Object.Type_, bind, Except.bind, pure, Except.pure,
      evalHashIndexExpression, mapGet, hne]

/-- C10 on the Hash of `{"a": 1}`, with the collision-free key derivation of
`Runtime.bare`: the index "a" gives Integer 1, the index "b" gives NULL. -/
theorem C10_hash_lookup_witness :
    evalIndexExpression Runtime.bare
        (.Hash 5 [(⟨.STRING_OBJ, hashStringInjective "a"⟩, .Str 3 "a", .Integer 4 1)])
        (.Str 9 "a") Heap.start
      = .ok (.Integer 4 1, Heap.start)
    ∧ evalIndexExpression Runtime.bare
        (.Hash 5 [(⟨.STRING_OBJ, hashStringInjective "a"⟩, .Str 3 "a", .Integer 4 1)])
        (.Str 9 "b") Heap.start
      = .ok (NULL, Heap.start) :=
  ⟨(C10_hash_lookup Runtime.bare Encodable.encode_injective Encodable.encode_injective
      hashStringInjective_injective 1 [(.StringLiteral "a", .IntegerLiteral 1)] 0 Heap.start
      { Heap.start with next := 6 } 5
      [(⟨.STRING_OBJ, hashStringInjective "a"⟩, .Str 3 "a", .Integer 4 1)] rfl
      (.Str 9 "a") (.string "a") rfl Heap.start).2.2.1,
   (C10_hash_lookup Runtime.bare Encodable.encode_injective Encodable.encode_injective
      hashStringInjective_injective 1 [(.StringLiteral "a", .IntegerLiteral 1)] 0 Heap.start
      { Heap.start with next := 6 } 5
      [(⟨.STRING_OBJ, hashStringInjective "a"⟩, .Str 3 "a", .Integer 4 1)] rfl
      (.Str 9 "b") (.string "b") rfl Heap.start).2.2.1⟩

/-! ### Statement sequences -/

theorem evalBlockStatement_step (ev : Node → Nat → Heap → Res) (s : Node) (rest : List Node)
    (r0 : Object) (env : Nat) (h h1 : Heap) (r : Object) (hs : ev s env h = .ok (r, h1)) :
    evalBlockStatement ev (s :: rest) r0 env h
      = if isSignal r then .ok (r, h1) else evalBlockStatement ev rest r env h1 := by
  simp only [evalBlockStatement, hs, isSignal]
  cases r <;> simp [Object.dynType]

theorem evalProgram_step (ev : Node → Nat → Heap → Res) (s : Node) (rest : List Node)
    (r0 : Object) (env : Nat) (h h1 : Heap) (r : Object) (hs : ev s env h = .ok (r, h1)) :
    evalProgram ev (s :: rest) r0 env h
      = if isSignal r then .ok (unwrapReturnValue r, h1) else evalProgram ev rest r env h1 := by
  simp only [evalProgram, hs, isSignal]
  cases r <;> simp [Object.dynType, unwrapReturnValue]

theorem evalBlockStatement_quiet (ev : Node → Nat → Heap → Res) (rest : List Node) (env : Nat) :
    ∀ (pre : List Node) (r0 : Object) (h : Heap) (r1 : Object) (h1 : Heap),
      quietRun ev pre r0 env h = some (r1, h1) →
      evalBlockStatement ev (pre ++ rest) r0 env h = evalBlockStatement ev rest r1 env h1 := by
  intro pre
  induction pre with
  | nil =>
    intro r0 h r1 h1 hq
    simp [quietRun] at hq
    simp [hq.1, hq.2]
  | cons s pre ih =>
    intro r0 h r1 h1 hq
    simp only [quietRun] at hq
    cases hs : ev s env h with
    | error f => simp [hs] at hq
    | ok p =>
      obtain ⟨r, h2⟩ := p
      simp only [hs] at hq
      by_cases hsig : isSignal r = true
      · simp [hsig] at hq
      · simp only [hsig] at hq
        rw [List.cons_append, evalBlockStatement_step ev s _ r0 env h h2 r hs]
        simp only [hsig]
        exact ih r h2 r1 h1 hq

theorem evalProgram_quiet (ev : Node → Nat → Heap → Res) (rest : List Node) (env : Nat) :
    ∀ (pre : List Node) (r0 : Object) (h : Heap) (r1 : Object) (h1 : Heap),
      quietRun ev pre r0 env h = some (r1, h1) →
      evalProgram ev (pre ++ rest) r0 env h = evalProgram ev rest r1 env h1 := by
  intro pre
  induction pre with
  | nil =>
    intro r0 h r1 h1 hq
    simp [quietRun] at hq
    simp [hq.1, hq.2]
  | cons s pre ih =>
    intro r0 h r1 h1 hq
    simp only [quietRun] at hq
    cases hs : ev s env h with
    | error f => simp [hs] at hq
    | ok p =>
      obtain ⟨r, h2⟩ := p
      simp only [hs] at hq
      by_cases hsig : isSignal r = true
      · simp [hsig] at hq
      · simp only [hsig] at hq
        rw [List.cons_append, evalProgram_step ev s _ r0 env h h2 r hs]
        simp only [hsig]
        exact ih r h2 r1 h1 hq

/-- C11: let the statements `pre` of a Program or BlockStatement evaluate in
sequence without fault and without control signal (no ReturnValue, no Error),
leaving the result r1 and the heap h1.  If there is nothing more, r1 (the last
statement's result) is the result.  If the next statement s yields a control
signal, then whatever statements `post` follow, they are not evaluated: the
heap is the one s left, `evalBlockStatement` returns the signal unchanged and
`evalProgram` returns the inner value of a ReturnValue and an Error unchanged.
If s yields no signal and is the last statement, its result is the result. -/
theorem C11_statement_sequences (rt : Runtime) (fuel : Nat) (pre : List Node) (env : Nat) (h h1 : Heap)
    (r1 : Object) (hq : quietRun (Eval rt fuel) pre .nil env h = some (r1, h1)) :
    (Eval rt (fuel + 1) (.BlockStatement pre) env h = .ok (r1, h1)
      ∧ Eval rt (fuel + 1) (.Program pre) env h = .ok (r1, h1))
    ∧ (∀ (s : Node) (post : List Node) (sig : Object) (h2 : Heap),
        Eval rt fuel s env h1 = .ok (sig, h2) → isSignal sig = true →
        Eval rt (fuel + 1) (.BlockStatement (pre ++ s :: post)) env h = .ok (sig, h2)
        ∧ (∀ a v, sig = .ReturnValue a v →
            Eval rt (fuel + 1) (.Program (pre ++ s :: post)) env h = .ok (v, h2))
        ∧ (∀ a m, sig = .Error a m →
            Eval rt (fuel + 1) (.Program (pre ++ s :: post)) env h = .ok (sig, h2)))
    ∧ (∀ (s : Node) (r : Object) (h2 : Heap),
        Eval rt fuel s env h1 = .ok (r, h2) → isSignal r = false →
        Eval rt (fuel + 1) (.BlockStatement (pre ++ [s])) env h = .ok (r, h2)
        ∧ Eval rt (fuel + 1) (.Program (pre ++ [s])) env h = .ok (r, h2)) := by
  have eB : ∀ stmts, Eval rt (fuel + 1) (.BlockStatement stmts) env h
      = evalBlockStatement (Eval rt fuel) stmts .nil env h := fun _ => rfl
  have eP : ∀ stmts, Eval rt (fuel + 1) (.Program stmts) env h
      = evalProgram (Eval rt fuel) stmts .nil env h := fun _ => rfl
  refine ⟨⟨?_, ?_⟩, ?_, ?_⟩
  · have := evalBlockStatement_quiet (Eval rt fuel) [] env pre .nil h r1 h1 hq
    rw [eB, ← List.append_nil pre, this]
    rfl
  · have := evalProgram_quiet (Eval rt fuel) [] env pre .nil h r1 h1 hq
    rw [eP, ← List.append_nil pre, this]
    rfl
  · intro s post sig h2 hs hsig
    refine ⟨?_, ?_, ?_⟩
    · rw [eB, evalBlockStatement_quiet (Eval rt fuel) _ env pre .nil h r1 h1 hq,
        evalBlockStatement_step _ s post r1 env h1 h2 sig hs]
      simp [hsig]
    · rintro a v rfl
      rw [eP, evalProgram_quiet (Eval rt fuel) _ env pre .nil h r1 h1 hq,
        evalProgram_step _ s post r1 env h1 h2 _ hs]
      simp [hsig, unwrapReturnValue]
    · rintro a m rfl
      rw [eP, evalProgram_quiet (Eval rt fuel) _ env pre .nil h r1 h1 hq,
        evalProgram_step _ s post r1 env h1 h2 _ hs]
      simp [hsig, unwrapReturnValue]
  · intro s r h2 hs hsig
    constructor
    · rw [eB, evalBlockStatement_quiet (Eval rt fuel) _ env pre .nil h r1 h1 hq,
        evalBlockStatement_step _ s [] r1 env h1 h2 r hs]
      simp [hsig, evalBlockStatement]
    · rw [eP, evalProgram_quiet (Eval rt fuel) _ env pre .nil h r1 h1 hq,
        evalProgram_step _ s [] r1 env h1 h2 r hs]
      simp [hsig, evalProgram]

/-- C11 on the statements `1; return 2; 3`: the block returns the
ReturnValue of 2 and the program returns Integer 2; the statement `3` is not
evaluated (nothing is allocated after the ReturnValue). -/
theorem C11_statement_sequences_witness :
    Eval Runtime.bare 3 (.BlockStatement statementsOneReturnTwoThree) 0 Heap.start
      = .ok (.ReturnValue 5 (.Integer 4 2), { Heap.start with next := 6 })
    ∧ Eval Runtime.bare 3 (.Program statementsOneReturnTwoThree) 0 Heap.start
      = .ok (.Integer 4 2, { Heap.start with next := 6 }) :=
  ⟨((C11_statement_sequences Runtime.bare 2 [.ExpressionStatement (.IntegerLiteral 1)] 0 Heap.start
      { Heap.start with next := 4 } (.Integer 3 1) rfl).2.1
      (.ReturnStatement (.IntegerLiteral 2)) [.ExpressionStatement (.IntegerLiteral 3)]
      (.ReturnValue 5 (.Integer 4 2)) { Heap.start with next := 6 } rfl rfl).1,
   ((C11_statement_sequences Runtime.bare 2 [.ExpressionStatement (.IntegerLiteral 1)] 0 Heap.start
      { Heap.start with next := 4 } (.Integer 3 1) rfl).2.1
      (.ReturnStatement (.IntegerLiteral 2)) [.ExpressionStatement (.IntegerLiteral 3)]
      (.ReturnValue 5 (.Integer 4 2)) { Heap.start with next := 6 } rfl rfl).2.1 5 _ rfl⟩

/-! ### Division by zero -/

/-- C19: for every integer a, the operator / on the Integer operands a and 0
reaches the native division of `evalNumericOperation` with a zero divisor:
the evaluation faults (`divideByZero`); no Error object and no other object
is returned.  The same holds for the expression `a / 0` on literals. -/
theorem C19_division_by_zero (a : Int) (la lb : Nat) (h : Heap) (rt : Runtime) (n env : Nat) :
    evalNumericOperation (.Integer la a) (.Integer lb 0) token.SLASH h = .error .divideByZero
    ∧ evalInfixExpression (.Integer la a) (.Integer lb 0) token.SLASH h = .error .divideByZero
    ∧ Eval rt (n + 2) (.InfixExpression (.IntegerLiteral a) token.SLASH (.IntegerLiteral 0)) env h
        = .error .divideByZero := by
  have e : evalNumericOperation (.Integer la a) (.Integer lb 0) token.SLASH h
      = .error .divideByZero := by
    simp [evalNumericOperation, Object.integerValue, bind, Except.bind, pure, Except.pure,
      token.PLUS, token.MINUS, token.ASTERISK, token.SLASH, throw, throwThe, MonadExceptOf.throw]
  refine ⟨e, by rw [evalInfixExpression_integers, e], ?_⟩
  rw [Eval_infix_literals, evalInfixExpression_integers]
  simp [evalNumericOperation, Object.integerValue, bind, Except.bind, pure, Except.pure,
      token.PLUS, token.MINUS, token.ASTERISK, token.SLASH, throw, throwThe, MonadExceptOf.throw]

/-! ### Carrier values outside function evaluation -/

/-- C12 fails on the code: the program `return if (true) { return 1 }`
evaluates to a ReturnValue (holding Integer 1), and so does the call
`fn() { return if (true) { return 1 } }()`: the inner `return` makes the
if-expression yield a ReturnValue, the outer `return` wraps it again, and
`evalProgram` and `unwrapReturnValue` remove one layer only. -/
theorem C12_return_value_escapes (rt : Runtime) (k env : Nat) (h : Heap) :
    Eval rt (k + 6) programReturnIfReturn env h
      = .ok (.ReturnValue (h.next + 1) (.Integer h.next 1), { h with next := h.next + 3 })
    ∧ Eval rt (k + 7) callReturnIfReturn env h
      = .ok (.ReturnValue (h.next + 2) (.Integer (h.next + 1) 1),
          { next := h.next + 4, envs := h.envs ++ [{ store := [], outer := some env }] }) :=
  ⟨rfl, rfl⟩

/-- C13 fails on the code: after the program `let x = if (true) { return 1 };`
the top-level environment binds x to a ReturnValue, and the program
`[if (true) { return 1 }]` builds an Array whose element is a ReturnValue:
the let statement and `evalExpressions` intercept an Error only. -/
theorem C13_return_value_stored (rt : Runtime) (k : Nat) :
    Eval rt (k + 6) programLetIfReturn 0 Heap.start
      = .ok (.nil,
          { next := 5,
            envs := [{ store := [("x", .ReturnValue 4 (.Integer 3 1))], outer := none }] })
    ∧ Heap.envGet
          { next := 5,
            envs := [{ store := [("x", .ReturnValue 4 (.Integer 3 1))], outer := none }] }
          0 "x"
      = some (.ReturnValue 4 (.Integer 3 1))
    ∧ Eval rt (k + 7) programArrayIfReturn 0 Heap.start
      = .ok (.Array 5 [.ReturnValue 4 (.Integer 3 1)], { Heap.start with next := 6 }) :=
  ⟨rfl, rfl, rfl⟩

/-- C14 fails on the code: the programs `fn() {}() + 1` and
`-if (true) { let a = 1 }` contain no division and no builtin, and with
whatever fuel their evaluation returns no object: with enough fuel it faults
with a nil dereference, because the operand without value is nil and the
operator calls `Type()` on it. -/
theorem C14_nil_dereference (rt : Runtime) (env : Nat) (h : Heap) :
    (∀ k : Nat, Eval rt (k + 5) programEmptyCallPlusOne env h = .error .nilDereference)
    ∧ (∀ k : Nat, Eval rt (k + 7) programMinusIfLet 0 Heap.start = .error .nilDereference)
    ∧ (∀ fuel : Nat, ∃ f, Eval rt fuel programEmptyCallPlusOne env h = .error f)
    ∧ (∀ fuel : Nat, ∃ f, Eval rt fuel programMinusIfLet 0 Heap.start = .error f) := by
  refine ⟨fun _ => rfl, fun _ => rfl, ?_, ?_⟩
  · intro fuel
    rcases fuel with _ | _ | _ | _ | _ | k
    · exact ⟨_, rfl⟩
    · exact ⟨_, rfl⟩
    · exact ⟨_, rfl⟩
    · exact ⟨_, rfl⟩
    · exact ⟨_, rfl⟩
    · exact ⟨_, rfl⟩
  · intro fuel
    rcases fuel with _ | _ | _ | _ | _ | _ | _ | k
    · exact ⟨_, rfl⟩
    · exact ⟨_, rfl⟩
    · exact ⟨_, rfl⟩
    · exact ⟨_, rfl⟩
    · exact ⟨_, rfl⟩
    · exact ⟨_, rfl⟩
    · exact ⟨_, rfl⟩
    · exact ⟨_, rfl⟩

/-! ### Function calls -/

theorem envSet_last (next : Nat) (base : List Environment) (e : Environment) (name : String)
    (value : Object) :
    Heap.envSet { next := next, envs := base ++ [e] } base.length name value
      = { next := next, envs := base ++ [{ e with store := mapSet e.store name value }] } := by
  simp [Heap.envSet]

theorem bindParameters_eq (next : Nat) (base : List Environment) (outer : Option Nat)
    (args : List Object) :
    ∀ (params : List String) (index : Nat) (store : List (String × Object)),
      index + params.length ≤ args.length →
      bindParameters base.length args params index
          { next := next, envs := base ++ [{ store := store, outer := outer }] }
        = .ok { next := next,
                envs := base ++ [{ store := boundStore store params (args.drop index),
                                   outer := outer }] } := by
  intro params
  induction params with
  | nil =>
    intro index store _
    simp [bindParameters, boundStore]
  | cons p ps ih =>
    intro index store hlen
    simp only [List.length_cons] at hlen
    have hi : index < args.length := by omega
    have hd : args.drop index = args[index] :: args.drop (index + 1) := by
      exact List.drop_eq_getElem_cons hi
    simp only [bindParameters, List.getElem?_eq_getElem hi, envSet_last]
    rw [ih (index + 1) _ (by omega)]
    simp only [boundStore]
    rw [hd]
    rfl

theorem mapGet_boundStore_not_mem (k : String) :
    ∀ (params : List String) (args : List Object) (store : List (String × Object)),
      k ∉ params → mapGet (boundStore store params args) k = mapGet store k := by
  intro params
  induction params with
  | nil => intro args store _; simp [boundStore]
  | cons p ps ih =>
    intro args store hk
    cases args with
    | nil => simp [boundStore]
    | cons a as =>
      have h1 : p ≠ k := fun e => hk (by simp [e])
      have h2 : k ∉ ps := fun e => hk (by simp [e])
      have := ih as (mapSet store p a) h2
      simp only [boundStore, List.zip_cons_cons, List.foldl_cons] at this ⊢
      rw [this, mapGet_mapSet]
      simp [h1]

theorem mapGet_boundStore_nodup :
    ∀ (params : List String) (args : List Object) (store : List (String × Object)),
      params.Nodup → ∀ (i : Nat) (hi : i < params.length) (hj : i < args.length),
      mapGet (boundStore store params args) params[i] = some args[i] := by
  intro params
  induction params with
  | nil => intro args store _ i hi; simp at hi
  | cons p ps ih =>
    intro args store hnd i hi hj
    cases args with
    | nil => simp at hj
    | cons a as =>
      rw [List.nodup_cons] at hnd
      have e : boundStore store (p :: ps) (a :: as) = boundStore (mapSet store p a) ps as := by
        simp [boundStore]
      rw [e]
      cases i with
      | zero =>
        simp only [List.getElem_cons_zero]
        rw [mapGet_boundStore_not_mem p ps as _ hnd.1, mapGet_mapSet]
        simp
      | succ j =>
        simp only [List.getElem_cons_succ]
        exact ih as _ hnd.2 j (by simpa using hi) (by simpa using hj)

/-- C15: for every user Function with parameters `Parameters` and every list
`args` of arguments: when the lengths differ, `applyFunction` returns the
Error "Argument mismatch, function FUNCTION expected n parameter(s), but got
m" whatever the evaluator of the body is (the body is not evaluated), without
fault.  When they are equal, `extendFunctionEnvironment` does not fault (no
argument index is out of range): it makes one fresh environment, enclosing
the captured environment `Env`, in which the parameters are bound to the
arguments position by position (with pairwise distinct parameter names,
parameter i is bound to argument i), and the body is evaluated in it. -/
theorem C15_apply_function_arity (rt : Runtime) (ev : Node → Nat → Heap → Res) (fa : Nat)
    (Parameters : List String) (Body : List Node) (Env : Nat) (args : List Object) (h : Heap) :
    (Parameters.length ≠ args.length →
      applyFunction rt ev (.Function fa Parameters Body Env) args h
        = .ok (newError ("Argument mismatch, function FUNCTION expected "
            ++ toString Parameters.length ++ " parameter(s), but got "
            ++ toString args.length) h))
    ∧ (Parameters.length = args.length →
      extendFunctionEnvironment Parameters Env args h
        = .ok (h.envs.length,
            { next := h.next,
              envs := h.envs ++ [{ store := boundStore [] Parameters args, outer := some Env }] })
      ∧ applyFunction rt ev (.Function fa Parameters Body Env) args h
        = (match ev (.BlockStatement Body) h.envs.length
              { next := h.next,
                envs := h.envs ++ [{ store := boundStore [] Parameters args,
                                     outer := some Env }] } with
            | .error f => .error f
            | .ok (evaluated, h2) => .ok (unwrapReturnValue evaluated, h2))
      ∧ (Parameters.Nodup → ∀ (i : Nat) (hi : i < Parameters.length) (hj : i < args.length),
          mapGet (boundStore [] Parameters args) Parameters[i] = some args[i])) := by
  constructor
  · intro hne
    simp [applyFunction, hne, ObjectType.toString]
  · intro heq
    have e1 : extendFunctionEnvironment Parameters Env args h
        = .ok (h.envs.length,
            { next := h.next,
              envs := h.envs ++ [{ store := boundStore [] Parameters args,
                                   outer := some Env }] }) := by
      have := bindParameters_eq h.next h.envs (some Env) args Parameters 0 [] (by omega)
      simp only [extendFunctionEnvironment, Heap.newEnvironment, this, List.drop_zero]
    refine ⟨e1, ?_, fun hnd i hi hj => mapGet_boundStore_nodup Parameters args [] hnd i hi hj⟩
    simp only [applyFunction, heq, ne_eq, not_true_eq_false, if_false, e1]


/-- C15 on a function of two parameters: one argument gives the Error, two
arguments are bound in order. -/
theorem C15_apply_function_arity_witness :
    applyFunction Runtime.bare (Eval Runtime.bare 3) (.Function 3 ["a", "b"] [] 0)
        [.Integer 4 7] Heap.start
      = .ok (.Error 3 "Argument mismatch, function FUNCTION expected 2 parameter(s), but got 1",
          { Heap.start with next := 4 })
    ∧ extendFunctionEnvironment ["a", "b"] 0 [.Integer 4 7, .Integer 5 8] Heap.start
      = .ok (1,
          { next := 3,
            envs := [{ store := [], outer := none },
                     { store := [("a", .Integer 4 7), ("b", .Integer 5 8)], outer := some 0 }] }) :=
  ⟨(C15_apply_function_arity Runtime.bare (Eval Runtime.bare 3) 3 ["a", "b"] [] 0
      [.Integer 4 7] Heap.start).1 (by decide),
   ((C15_apply_function_arity Runtime.bare (Eval Runtime.bare 3) 3 ["a", "b"] [] 0
      [.Integer 4 7, .Integer 5 8] Heap.start).2 rfl).1⟩

/-! ### Closures and recursion -/

/-- C16: for all integers a and b, the program
`let makeAdder = fn(x) { fn(y) { x + y } }; let addTwo = makeAdder(a); addTwo(b);`
evaluated in a fresh top-level environment yields the Integer holding the
int64 sum of a and b, which is a + b whenever a + b is in the int64 range
(5 for a = 2, b = 3).  The function bound to `addTwo` has captured
environment 1, the environment of the call `makeAdder(a)` in which x is bound
to a; the top-level environment, from which `addTwo` is called, has no x, and
when it does have one (`let x = 100;` before the call) the result is still
the sum of a and b. -/
theorem C16_closure_capture (rt : Runtime) (k : Nat) (a b : Int) :
    (∃ h : Heap,
      Eval rt (k + 7) (programMakeAdder a b) 0 Heap.start
        = .ok (.Integer 7 (wrap64 (a + b)), h)
      ∧ h.envGet 0 "addTwo" = some (.Function 5 ["y"] adderBody 1)
      ∧ h.envGet 1 "x" = some (.Integer 4 a)
      ∧ h.envGet 0 "x" = none)
    ∧ (∃ h : Heap,
      Eval rt (k + 7) (programMakeAdderOtherX a b) 0 Heap.start
        = .ok (.Integer 8 (wrap64 (a + b)), h)
      ∧ h.envGet 0 "x" = some (.Integer 6 100))
    ∧ (isInt64 (a + b) → ∃ h : Heap,
      Eval rt (k + 7) (programMakeAdder a b) 0 Heap.start = .ok (.Integer 7 (a + b), h)) := by
  have h1 : ∃ h : Heap,
      Eval rt (k + 7) (programMakeAdder a b) 0 Heap.start
        = .ok (.Integer 7 (wrap64 (a + b)), h)
      ∧ h.envGet 0 "addTwo" = some (.Function 5 ["y"] adderBody 1)
      ∧ h.envGet 1 "x" = some (.Integer 4 a)
      ∧ h.envGet 0 "x" = none := ⟨_, rfl, rfl, rfl, rfl⟩
  refine ⟨h1, ⟨_, rfl, rfl⟩, ?_⟩
  intro hab
  obtain ⟨h, he, _⟩ := h1
  exact ⟨h, by rw [he, wrap64_of_isInt64 _ hab]⟩

/-- C16 at a = 2, b = 3: the program yields Integer 5. -/
theorem C16_closure_capture_witness : ∃ h : Heap,
    Eval Runtime.bare 7 (programMakeAdder 2 3) 0 Heap.start = .ok (.Integer 7 5, h) :=
  (C16_closure_capture Runtime.bare 0 2 3).2.2 (by decide)

set_option maxRecDepth 100000 in
/-- C17: for every integer n with 0 ≤ n ≤ 20, the program
`let fact = fn(n) { if (n < 2) { 1 } else { n * fact(n - 1) } }; fact(n);`
evaluated in a fresh top-level environment terminates (fuel 7 n + 9 or more
suffices) and yields Integer n!.  The let statement binds `fact`, in
environment 0, to a Function whose captured environment is environment 0
itself, which is why the body finds `fact`. -/
theorem C17_factorial (rt : Runtime) (k : Nat) (n : Int) (h0 : 0 ≤ n) (h20 : n ≤ 20) :
    (∃ (a : Nat) (h : Heap),
      Eval rt (k + 7 * n.toNat + 9) (programFact n) 0 Heap.start
        = .ok (.Integer a (Nat.factorial n.toNat), h))
    ∧ (∃ h : Heap, Eval rt (k + 2) letFact 0 Heap.start = .ok (.nil, h)
        ∧ h.envGet 0 "fact" = some (.Function 3 ["n"] factBody 0)) := by
  refine ⟨?_, ⟨_, rfl, rfl⟩⟩
  interval_cases n <;> exact ⟨_, _, rfl⟩

/-- C17 at n = 5: the program yields Integer 120. -/
theorem C17_factorial_witness : ∃ (a : Nat) (h : Heap),
    Eval Runtime.bare 44 (programFact 5) 0 Heap.start = .ok (.Integer a 120, h) :=
  (C17_factorial Runtime.bare 0 5 (by decide) (by decide)).1

/-! ### Hash literals with duplicate keys -/

/-- The expression `{"a": 1, "a": 2}["a"]` for the two orders in which the
loop can visit the pairs. -/
theorem indexAOf_orders (rt : Runtime) (n env : Nat) (h : Heap) :
    Eval rt (n + 3) (indexAOf pairsAOneATwo) env h
      = .ok (.Integer (h.next + 3) 2, { h with next := h.next + 6 })
    ∧ Eval rt (n + 3) (indexAOf pairsAOneATwo.reverse) env h
      = .ok (.Integer (h.next + 3) 1, { h with next := h.next + 6 }) := by
  constructor
  · simp [indexAOf, pairsAOneATwo, Eval, evalHashLiteral, isError, Object.dynType, hashKey,
      mapSet, evalIndexExpression, arrayAndInteger, Object.Type_, bind, Except.bind, pure,
      Except.pure, evalHashIndexExpression, mapGet]
  · simp [indexAOf, pairsAOneATwo, Eval, evalHashLiteral, isError, Object.dynType, hashKey,
      mapSet, evalIndexExpression, arrayAndInteger, Object.Type_, bind, Except.bind, pure,
      Except.pure, evalHashIndexExpression, mapGet]

/-- C18, as stated, fails: the pairs of `{"a": 1, "a": 2}` are the entries of a
Go map, which a `range` loop may visit in either order.  Visited in source
order, `{"a": 1, "a": 2}["a"]` is Integer 2; visited in the other order it is
Integer 1, not Integer 2: the result is not the same on every run. -/
theorem C18_duplicate_key_counterexample :
    pairsAOneATwo.reverse.Perm pairsAOneATwo
    ∧ Eval Runtime.bare 3 (indexAOf pairsAOneATwo) 0 Heap.start
      = .ok (.Integer 6 2, { Heap.start with next := 9 })
    ∧ Eval Runtime.bare 3 (indexAOf pairsAOneATwo.reverse) 0 Heap.start
      = .ok (.Integer 6 1, { Heap.start with next := 9 })
    ∧ ¬ ∃ (a : Nat) (h : Heap),
      Eval Runtime.bare 3 (indexAOf pairsAOneATwo.reverse) 0 Heap.start
        = .ok (.Integer a 2, h) := by
  have e2 := (indexAOf_orders Runtime.bare 0 0 Heap.start).2
  refine ⟨List.reverse_perm _, (indexAOf_orders Runtime.bare 0 0 Heap.start).1, e2, ?_⟩
  rintro ⟨a, h, hh⟩
  rw [e2] at hh
  simp at hh

/-- C18 (amended): let the key derivation have no collisions and let a
HashLiteral evaluate to a Hash.  If (key, value) is the last pair, in the
order in which the loop of `evalHashLiteral` visits the pairs, whose key has
the content c (no pair visited after it has a key of content c), then the
Hash maps c to that pair: pairs visited later overwrite earlier ones, and
indexing by any object of content c returns `value`.  The order is that of
the loop, not the source order: for `{"a": 1, "a": 2}` the index "a" gives
Integer 2 when the pairs are visited in source order and Integer 1 when they
are visited in the other order. -/
theorem C18_hash_literal_amended (rt : Runtime) (hInt : Function.Injective rt.hashInteger)
    (hBool : Function.Injective rt.hashBoolean) (hStr : Function.Injective rt.hashString)
    (fuel : Nat) (Pairs : List (Node × Node)) (env : Nat) (h h' : Heap) (a : Nat)
    (m : List (HashKey × Object × Object))
    (hbuilt : Eval rt (fuel + 1) (.HashLiteral Pairs) env h = .ok (.Hash a m, h'))
    (front back : List (Object × Object)) (key value : Object) (c : Content)
    (htrace : hashLiteralTrace (Eval rt fuel) Pairs env h = front ++ (key, value) :: back)
    (hkey : key.content = some c) (hback : ∀ p ∈ back, p.1.content ≠ some c) :
    (∀ kk : HashKey, hashKey rt key = some kk → mapGet m kk = some (key, value))
    ∧ (∀ (k : Object) (h2 : Heap), k.content = some c →
        evalIndexExpression rt (.Hash a m) k h2 = .ok (value, h2))
    ∧ (∀ (n env0 : Nat) (h0 : Heap),
        Eval rt (n + 3) (indexAOf pairsAOneATwo) env0 h0
          = .ok (.Integer (h0.next + 3) 2, { h0 with next := h0.next + 6 })
        ∧ Eval rt (n + 3) (indexAOf pairsAOneATwo.reverse) env0 h0
          = .ok (.Integer (h0.next + 3) 1, { h0 with next := h0.next + 6 })) := by
  have hb : evalHashLiteral rt (Eval rt fuel) Pairs [] env h = .ok (.Hash a m, h') := hbuilt
  have hfind : (hashLiteralTrace (Eval rt fuel) Pairs env h).reverse.find?
      (fun p => decide (p.1.content = some c)) = some (key, value) := by
    rw [htrace]
    simp only [List.reverse_append, List.reverse_cons, List.append_assoc, List.find?_append]
    have : back.reverse.find? (fun p => decide (p.1.content = some c)) = none := by
      rw [List.find?_eq_none]
      intro p hp
      simpa using hback p (List.mem_reverse.mp hp)
    simp [this, hkey]
  have hlook : ∀ (k : Object) (kk : HashKey), hashKey rt k = some kk → k.content = some c →
      mapGet m kk = some (key, value) := by
    intro k kk hk hc
    have := evalHashLiteral_lookup rt hInt hBool hStr (Eval rt fuel) k kk c hk hc
      Pairs [] env h h' a m hb
    rw [this, hfind]
  refine ⟨fun kk hk => hlook key kk hk hkey, ?_, fun n env0 h0 => indexAOf_orders rt n env0 h0⟩
  intro k h2 hc
  obtain ⟨kk, hk⟩ := hashKey_of_content rt k c hc
  have e2 : evalIndexExpression rt (.Hash a m) k h2
      = evalHashIndexExpression rt (.Hash a m) k h2 := by
    simp [evalIndexExpression, arrayAndInteger, Object.Type_, bind, Except.bind, pure,
      Except.pure]
  rw [e2]
  simp [evalHashIndexExpression, hk, hlook k kk hk hc, pure, Except.pure]


/-- C18 (amended) on `{"a": 1, "a": 2}` visited in source order: the pair
("a", 2) is the last one with content "a" and the index "a" gives Integer 2. -/
theorem C18_hash_literal_amended_witness :
    evalIndexExpression Runtime.bare
        (.Hash 7 [(⟨.STRING_OBJ, hashStringInjective "a"⟩, .Str 5 "a", .Integer 6 2)])
        (.Str 9 "a") Heap.start
      = .ok (.Integer 6 2, Heap.start) :=
  (C18_hash_literal_amended Runtime.bare Encodable.encode_injective Encodable.encode_injective
    hashStringInjective_injective 1 pairsAOneATwo 0 Heap.start { Heap.start with next := 8 } 7
    [(⟨.STRING_OBJ, hashStringInjective "a"⟩, .Str 5 "a", .Integer 6 2)] rfl
    [(.Str 3 "a", .Integer 4 1)] [] (.Str 5 "a") (.Integer 6 2) (.string "a") rfl rfl
    (by simp)).2.1 (.Str 9 "a") Heap.start rfl

/-! ### The lexer -/

namespace lexer

theorem readChar_position (l : Lexer) : l.readChar.position = l.position + 1 := by
  unfold Lexer.readChar
  split <;> rfl

theorem readChar_input (l : Lexer) : l.readChar.input = l.input := by
  unfold Lexer.readChar
  split <;> rfl

theorem readChar_ch_of_end (l : Lexer) (h : l.input.length ≤ l.position + 1) :
    l.readChar.ch = NUL := by
  unfold Lexer.readChar
  simp [h]

theorem readWhile_of_false (cond : Char → Bool) (n : Nat) (l : Lexer)
    (h : cond l.ch = false) : Lexer.readWhile cond n l = l := by
  cases n <;> simp [Lexer.readWhile, h]

theorem readWhile_position_le (cond : Char → Bool) :
    ∀ (n : Nat) (l : Lexer), l.position ≤ (Lexer.readWhile cond n l).position := by
  intro n
  induction n with
  | zero => intro l; simp [Lexer.readWhile]
  | succ n ih =>
    intro l
    simp only [Lexer.readWhile]
    split
    · have := ih l.readChar
      rw [readChar_position] at this
      omega
    · exact le_refl _

theorem readWhile_position_lt (cond : Char → Bool) (n : Nat) (l : Lexer)
    (h : cond l.ch = true) :
    l.position < (Lexer.readWhile cond (n + 1) l).position := by
  simp only [Lexer.readWhile, h, if_true]
  have := readWhile_position_le cond n l.readChar
  rw [readChar_position] at this
  omega

/-- No loop of the lexer is cut short: when the rounds are used up the loop
condition is false. -/
theorem readWhile_cond_false (cond : Char → Bool) (hnul : cond NUL = false) :
    ∀ (n : Nat) (l : Lexer), l.input.length ≤ l.position + n →
      (n = 0 → cond l.ch = false) → cond (Lexer.readWhile cond n l).ch = false := by
  intro n
  induction n with
  | zero => intro l _ h0; simpa [Lexer.readWhile] using h0 rfl
  | succ n ih =>
    intro l hlen _
    simp only [Lexer.readWhile]
    by_cases hc : cond l.ch = true
    · simp only [hc, if_true]
      apply ih
      · rw [readChar_position, readChar_input]; omega
      · intro hn
        subst hn
        rw [readChar_ch_of_end l (by omega)]
        exact hnul
    · simp only [hc]
      simpa using hc

theorem eatWhiteSpace_ch (l : Lexer) : isWhiteSpace l.eatWhiteSpace.ch = false := by
  unfold Lexer.eatWhiteSpace Lexer.rounds
  exact readWhile_cond_false isWhiteSpace (by decide) _ l (by omega) (by omega)

theorem eatWhiteSpace_idem (l : Lexer) : l.eatWhiteSpace.eatWhiteSpace = l.eatWhiteSpace := by
  have h := eatWhiteSpace_ch l
  unfold Lexer.eatWhiteSpace at h ⊢
  exact readWhile_of_false _ _ _ h

theorem eatWhiteSpace_position_le (l : Lexer) : l.position ≤ l.eatWhiteSpace.position :=
  readWhile_position_le _ _ _

theorem readStringLoop_position_lt :
    ∀ (n : Nat) (l : Lexer), l.position < (Lexer.readStringLoop (n + 1) l).position := by
  intro n
  induction n with
  | zero =>
    intro l
    simp only [Lexer.readStringLoop]
    split <;> simp [readChar_position]
  | succ n ih =>
    intro l
    rw [Lexer.readStringLoop]
    split
    · simp [readChar_position]
    · have := ih l.readChar
      rw [readChar_position] at this
      omega

/-- The loop of `readString` is not cut short either: it ends on a quote or
on the zero byte. -/
theorem readStringLoop_ends :
    ∀ (n : Nat) (l : Lexer), l.input.length ≤ l.position + (n + 1) →
      (Lexer.readStringLoop (n + 1) l).ch = '"' ∨ (Lexer.readStringLoop (n + 1) l).ch = NUL := by
  intro n
  induction n with
  | zero =>
    intro l hlen
    have hn : l.readChar.ch = NUL := readChar_ch_of_end l (by omega)
    simp [Lexer.readStringLoop, hn]
  | succ n ih =>
    intro l hlen
    rw [Lexer.readStringLoop]
    split
    · assumption
    · apply ih
      rw [readChar_position, readChar_input]
      omega

/-- C20 fails on the code: on the input "@" `NextToken` returns the token
ILLEGAL and leaves the lexer as it was (position 0), so every further call
returns ILLEGAL again and EOF is never returned.  In general, whenever the
byte after the white space is not zero, not a letter, not a digit, not a
quote and not in `ByteToToken`, `NextToken` returns ILLEGAL without reading a
byte, and the next call returns the same. -/
theorem C20_illegal_token_no_progress :
    (New "@".toList).NextToken
      = ({ Type_ := token.ILLEGAL, Literal := "@" }, New "@".toList)
    ∧ (∀ k : Nat, Lexer.tokens k (New "@".toList)
        = List.replicate k { Type_ := token.ILLEGAL, Literal := "@" })
    ∧ (∀ l0 : Lexer, l0.eatWhiteSpace.ch ≠ NUL → isLetter l0.eatWhiteSpace.ch = false →
        isDigit l0.eatWhiteSpace.ch = false → l0.eatWhiteSpace.ch ≠ '"' →
        mapGet token.ByteToToken l0.eatWhiteSpace.ch = none →
        l0.NextToken = ({ Type_ := token.ILLEGAL,
                          Literal := String.singleton l0.eatWhiteSpace.ch }, l0.eatWhiteSpace)
        ∧ l0.eatWhiteSpace.NextToken = l0.NextToken) := by
  have e : (New "@".toList).NextToken
      = ({ Type_ := token.ILLEGAL, Literal := "@" }, New "@".toList) := by decide
  refine ⟨e, ?_, ?_⟩
  · intro k
    induction k with
    | zero => rfl
    | succ k ih => simp only [Lexer.tokens, e, ih, List.replicate_succ]
  · intro l0 h1 h2 h3 h4 h5
    have key : ∀ l : Lexer, l.eatWhiteSpace = l0.eatWhiteSpace →
        l.NextToken = ({ Type_ := token.ILLEGAL,
                         Literal := String.singleton l0.eatWhiteSpace.ch }, l0.eatWhiteSpace) := by
      intro l hl
      simp only [Lexer.NextToken, hl, h1, h2, h3, h4, h5, if_false]
      simp
    exact ⟨key l0 rfl, (key _ (eatWhiteSpace_idem l0)).trans (key l0 rfl).symm⟩

/-- C20's general part on the input "  @" (two blanks, then the byte "@"):
the white space is read, then ILLEGAL is returned with the position left on
the byte "@". -/
theorem C20_illegal_token_no_progress_witness :
    (New "  @".toList).NextToken
      = ({ Type_ := token.ILLEGAL, Literal := "@" },
         { input := "  @".toList, position := 2, ch := '@' })
    ∧ (New "  @".toList).eatWhiteSpace.NextToken = (New "  @".toList).NextToken :=
  C20_illegal_token_no_progress.2.2 (New "  @".toList) (by decide) (by decide) (by decide)
    (by decide) (by decide)

/-- Every call of `NextToken` that returns a token other than EOF and ILLEGAL
strictly increases the position. -/
theorem NextToken_progress (l0 : Lexer) (hE : (l0.NextToken).1.Type_ ≠ token.EOF)
    (hI : (l0.NextToken).1.Type_ ≠ token.ILLEGAL) :
    l0.position < (l0.NextToken).2.position := by
  have h0 := eatWhiteSpace_position_le l0
  have hr : l0.eatWhiteSpace.rounds = l0.eatWhiteSpace.input.length + 1 := rfl
  unfold Lexer.NextToken at hE hI ⊢
  simp only at hE hI ⊢
  split
  · rename_i h; simp [h] at hE
  · split
    · rename_i _ h
      have := readWhile_position_lt isLetter l0.eatWhiteSpace.input.length l0.eatWhiteSpace h
      simp only [Lexer.readIdentifier, hr]
      omega
    · split
      · rename_i _ _ h
        have := readWhile_position_lt isDigit l0.eatWhiteSpace.input.length l0.eatWhiteSpace h
        simp only [Lexer.readIntegerAsString, hr]
        omega
      · split
        · have := readStringLoop_position_lt l0.eatWhiteSpace.input.length l0.eatWhiteSpace
          simp only [Lexer.readString, hr, readChar_position]
          omega
        · rename_i h1 h2 h3 h4
          split
          · rename_i h5
            simp [h1, h2, h3, h4, h5] at hI
          · split
            · split
              · simp only [readChar_position]; omega
              · split
                · simp only [readChar_position]; omega
                · simp only [readChar_position]; omega
            · simp only [readChar_position]; omega

/-- Once the byte after the white space is zero, `NextToken` returns EOF, and
EOF again on every further call. -/
theorem NextToken_eof_stable (l0 : Lexer) (h : l0.eatWhiteSpace.ch = NUL) :
    l0.NextToken = ({ Type_ := token.EOF, Literal := "" }, l0.eatWhiteSpace)
    ∧ l0.eatWhiteSpace.NextToken = ({ Type_ := token.EOF, Literal := "" }, l0.eatWhiteSpace) := by
  constructor
  · simp [Lexer.NextToken, h]
  · simp [Lexer.NextToken, eatWhiteSpace_idem, h]

end lexer

end Lark
